import Mathlib

/-!
A verification development for the mentat transactor core: a shallow
embedding of the datom data model, the timeline rewind subsystem
(`db/src/timelines.rs`), the metadata mutator (`db/src/metadata.rs`),
the upsert-resolution generation machinery (`db/src/upsert_resolution.rs`)
and the debug datom ordering (`db/src/debug.rs`), together with theorems
settling the specification claims about them.

Machine integers (`i64`, `i32`) are modelled as `Int`; none of the code
under study performs overflowing arithmetic.  Rust `Vec` is modelled as
`List`; `BTreeMap` as a key-sorted association list; panics
(`panic!`, `unreachable!`, failed `assert!`) as `Option`/`Except` failure.
-/

/-- Comparison derived from a linear order, modelling Rust's `Ord::cmp`
for primitive ordered types (`i64`, `bool`, `String`, tuples via `Prod.Lex`). -/
def cmpL {α : Type _} [LinearOrder α] (a b : α) : Ordering :=
  if a < b then .lt else if a = b then .eq else .gt

theorem cmpL_lt_iff {α : Type _} [LinearOrder α] (a b : α) :
    cmpL a b = .lt ↔ a < b := by
  unfold cmpL
  rcases lt_trichotomy a b with h | h | h
  · simp [if_pos h, h]
  · subst h; simp [lt_irrefl]
  · have h1 : ¬ a < b := not_lt_of_gt h
    have h2 : a ≠ b := ne_of_gt h
    simp [if_neg h1, if_neg h2, h1]

theorem cmpL_eq_iff {α : Type _} [LinearOrder α] (a b : α) :
    cmpL a b = .eq ↔ a = b := by
  unfold cmpL
  rcases lt_trichotomy a b with h | h | h
  · simp [if_pos h, ne_of_lt h]
  · subst h; simp [lt_irrefl]
  · have h1 : ¬ a < b := not_lt_of_gt h
    have h2 : a ≠ b := ne_of_gt h
    simp [if_neg h1, if_neg h2, h2]

theorem cmpL_gt_iff {α : Type _} [LinearOrder α] (a b : α) :
    cmpL a b = .gt ↔ b < a := by
  unfold cmpL
  rcases lt_trichotomy a b with h | h | h
  · simp [if_pos h, not_lt_of_gt h]
  · subst h; simp [lt_irrefl]
  · have h1 : ¬ a < b := not_lt_of_gt h
    have h2 : a ≠ b := ne_of_gt h
    simp [if_neg h1, if_neg h2, h]

theorem cmpL_swap {α : Type _} [LinearOrder α] (a b : α) :
    (cmpL a b).swap = cmpL b a := by
  rcases lt_trichotomy a b with h | h | h
  · rw [(cmpL_lt_iff a b).2 h, (cmpL_gt_iff b a).2 h]; rfl
  · subst h
    have h1 : cmpL a a = .eq := by
      unfold cmpL; simp [lt_irrefl]
    rw [h1]; rfl
  · rw [(cmpL_gt_iff a b).2 h, (cmpL_lt_iff b a).2 h]; rfl

theorem cmpL_trans {α : Type _} [LinearOrder α] {a b c : α}
    (h1 : cmpL a b = .lt) (h2 : cmpL b c = .lt) : cmpL a c = .lt :=
  (cmpL_lt_iff a c).2 (lt_trans ((cmpL_lt_iff a b).1 h1) ((cmpL_lt_iff b c).1 h2))

theorem cmpL_self {α : Type _} [LinearOrder α] (a : α) : cmpL a a = .eq :=
  (cmpL_eq_iff a a).2 rfl

/-- `cmpL` on a lexicographic product agrees with Rust's derived tuple
comparison: compare the first components, then the second on a tie. -/
theorem cmpL_lex {α β : Type _} [LinearOrder α] [LinearOrder β]
    (a1 b1 : α) (a2 b2 : β) :
    cmpL (α := α ×ₗ β) (toLex (a1, a2)) (toLex (b1, b2)) =
      (cmpL a1 b1).then (cmpL a2 b2) := by
  rcases lt_trichotomy a1 b1 with h | h | h
  · rw [(cmpL_lt_iff a1 b1).2 h]
    have hl : toLex (a1, a2) < toLex (b1, b2) := (Prod.Lex.lt_iff _ _).2 (Or.inl h)
    rw [(cmpL_lt_iff _ _).2 hl]; rfl
  · subst h
    rw [cmpL_self a1]
    rcases lt_trichotomy a2 b2 with h2 | h2 | h2
    · have hl : toLex (a1, a2) < toLex (a1, b2) :=
        (Prod.Lex.lt_iff _ _).2 (Or.inr ⟨rfl, h2⟩)
      rw [(cmpL_lt_iff _ _).2 hl, (cmpL_lt_iff a2 b2).2 h2]; rfl
    · subst h2
      rw [cmpL_self (toLex (a1, a2)), cmpL_self a2]; rfl
    · have hl : toLex (a1, b2) < toLex (a1, a2) :=
        (Prod.Lex.lt_iff _ _).2 (Or.inr ⟨rfl, h2⟩)
      rw [(cmpL_gt_iff _ _).2 hl, (cmpL_gt_iff a2 b2).2 h2]; rfl
  · rw [(cmpL_gt_iff a1 b1).2 h]
    have hl : toLex (b1, b2) < toLex (a1, a2) := (Prod.Lex.lt_iff _ _).2 (Or.inl h)
    rw [(cmpL_gt_iff _ _).2 hl]; rfl

/-- An entid: a 64-bit signed integer (`i64`), modelled as `Int`. -/
abbrev Entid := Int

/-- Modelled from the spec: `ValueType` from the missing `mentat_core` crate.
"A closed set: Ref, Boolean, Long, Double, String, Keyword, Instant, Uuid". -/
inductive ValueType : Type where
  | ref
  | boolean
  | long
  | double
  | string
  | keyword
  | instant
  | uuid
deriving DecidableEq, Repr

/-- Modelled from the spec: "Each has a distinct stable `value_type_tag`
integer used at the storage layer" (the concrete integers live in the
missing `mentat_core` crate; only distinctness is relied upon). -/
def ValueType.value_type_tag : ValueType → Int
  | .ref => 0
  | .boolean => 1
  | .long => 2
  | .double => 3
  | .string => 4
  | .keyword => 5
  | .instant => 6
  | .uuid => 7

/-- Modelled from the spec: `TypedValue` from the missing `mentat_core`
crate, "a tagged union carrying a value together with its type".
The `double` payload is modelled as an ordered stand-in (`Int`) for the
totally ordered `OrderedFloat<f64>`; `instant` as milliseconds (`Int`);
`uuid` by its string form. -/
inductive TypedValue : Type where
  | ref (e : Entid)
  | boolean (b : Bool)
  | long (x : Int)
  | double (x : Int)
  | string (s : String)
  | keyword (s : String)
  | instant (ms : Int)
  | uuid (s : String)
deriving DecidableEq, Repr

def TypedValue.value_type : TypedValue → ValueType
  | .ref _ => .ref
  | .boolean _ => .boolean
  | .long _ => .long
  | .double _ => .double
  | .string _ => .string
  | .keyword _ => .keyword
  | .instant _ => .instant
  | .uuid _ => .uuid

/-- Order-faithful key for the derived (constructor index, then payload)
ordering of `TypedValue`: every payload embeds into `Int ×ₗ String`
preserving its order. -/
def TypedValue.key : TypedValue → ℕ ×ₗ (Int ×ₗ String)
  | .ref e => toLex (0, toLex (e, ""))
  | .boolean b => toLex (1, toLex (if b then 1 else 0, ""))
  | .long x => toLex (2, toLex (x, ""))
  | .double x => toLex (3, toLex (x, ""))
  | .string s => toLex (4, toLex (0, s))
  | .keyword s => toLex (5, toLex (0, s))
  | .instant ms => toLex (6, toLex (ms, ""))
  | .uuid s => toLex (7, toLex (0, s))

/-- Modelled from the spec: the derived total order on `TypedValue`
(missing `mentat_core`), via the order-faithful key. -/
def tv_cmp (x y : TypedValue) : Ordering := cmpL x.key y.key

/-- Rust's `Ord` for `Option<bool>`: `None < Some(false) < Some(true)`. -/
def opt_bool_cmp : Option Bool → Option Bool → Ordering
  | none, none => .eq
  | none, some _ => .lt
  | some _, none => .gt
  | some a, some b => cmpL a b

/-- Key embedding of `Option Bool` into `ℕ` for its Rust ordering. -/
def obKey : Option Bool → ℕ
  | none => 0
  | some false => 1
  | some true => 2

theorem opt_bool_cmp_eq_key (a b : Option Bool) :
    opt_bool_cmp a b = cmpL (obKey a) (obKey b) := by
  rcases a with _ | _ | _ <;> rcases b with _ | _ | _ <;> decide

/-- A datom as materialized by `debug.rs`: `(e, a, v, tx, added)`, with
`added` present only for transaction views. -/
structure Datom : Type where
  e : Entid
  a : Entid
  v : TypedValue
  tx : Int
  added : Option Bool
deriving DecidableEq, Repr

/-- `datom_cmp` from `db/src/debug.rs`: sort datoms by `[e a v]`, grouping
by `tx` first if `added` is present.  Note the branch inspects only `x`. -/
def datom_cmp (x y : Datom) : Ordering :=
  match x.added.isSome with
  | true =>
      (cmpL x.tx y.tx).then ((cmpL x.e y.e).then ((cmpL x.a y.a).then
        ((cmpL x.v.value_type.value_type_tag y.v.value_type.value_type_tag).then
          ((tv_cmp x.v y.v).then (opt_bool_cmp x.added y.added)))))
  | false =>
      (cmpL x.e y.e).then ((cmpL x.a y.a).then
        ((cmpL x.v.value_type.value_type_tag y.v.value_type.value_type_tag).then
          ((tv_cmp x.v y.v).then (cmpL x.tx y.tx))))

/-- The transaction-view sort key of a datom. -/
def Datom.txKey (d : Datom) :
    Int ×ₗ (Int ×ₗ (Int ×ₗ (Int ×ₗ ((ℕ ×ₗ (Int ×ₗ String)) ×ₗ ℕ)))) :=
  toLex (d.tx, toLex (d.e, toLex (d.a, toLex (d.v.value_type.value_type_tag,
    toLex (d.v.key, obKey d.added)))))

/-- The current-state sort key of a datom. -/
def Datom.curKey (d : Datom) :
    Int ×ₗ (Int ×ₗ (Int ×ₗ ((ℕ ×ₗ (Int ×ₗ String)) ×ₗ Int))) :=
  toLex (d.e, toLex (d.a, toLex (d.v.value_type.value_type_tag,
    toLex (d.v.key, d.tx))))

theorem datom_cmp_eq_txKey {x y : Datom} (hx : x.added.isSome = true) :
    datom_cmp x y = cmpL x.txKey y.txKey := by
  unfold datom_cmp Datom.txKey
  rw [hx]
  simp only [cmpL_lex, tv_cmp, opt_bool_cmp_eq_key]

theorem datom_cmp_eq_curKey {x y : Datom} (hx : x.added.isSome = false) :
    datom_cmp x y = cmpL x.curKey y.curKey := by
  unfold datom_cmp Datom.curKey
  rw [hx]
  simp only [cmpL_lex, tv_cmp]

/-- C9 counterexample: the claim asserts `cmp(x,y)` is the negation of
`cmp(y,x)` for every pair of datoms, but `datom_cmp` chooses its key by
inspecting only `x.added`; for a transaction-view datom against a
current-state datom both directions can return `gt`. -/
theorem c9_counterexample :
    datom_cmp ⟨1, 1, .long 0, 2, some true⟩ ⟨2, 1, .long 0, 1, none⟩ ≠
      (datom_cmp ⟨2, 1, .long 0, 1, none⟩ ⟨1, 1, .long 0, 2, some true⟩).swap := by
  decide

/-- C9 (amended): restricted to pairs of datoms in the same view class
(`added` present in both or absent in both), `datom_cmp` is antisymmetric
(`cmp(x,y)` is the swap of `cmp(y,x)`) and transitive; and for
transaction-view datoms agreeing on `(tx, e, a, value_type_tag, v)`, a
retract (`added = false`) orders strictly before an assert (`added = true`). -/
theorem c9_datom_cmp_total_order :
    (∀ x y : Datom, x.added.isSome = y.added.isSome →
      (datom_cmp x y).swap = datom_cmp y x) ∧
    (∀ x y z : Datom, x.added.isSome = y.added.isSome →
      y.added.isSome = z.added.isSome →
      datom_cmp x y = .lt → datom_cmp y z = .lt → datom_cmp x z = .lt) ∧
    (∀ x y : Datom, x.added = some false → y.added = some true →
      x.tx = y.tx → x.e = y.e → x.a = y.a → x.v = y.v →
      datom_cmp x y = .lt) := by
  refine ⟨?_, ?_, ?_⟩
  · intro x y hxy
    cases hx : x.added.isSome with
    | true =>
        have hy : y.added.isSome = true := by rw [← hxy, hx]
        rw [datom_cmp_eq_txKey hx, datom_cmp_eq_txKey hy]
        exact cmpL_swap _ _
    | false =>
        have hy : y.added.isSome = false := by rw [← hxy, hx]
        rw [datom_cmp_eq_curKey hx, datom_cmp_eq_curKey hy]
        exact cmpL_swap _ _
  · intro x y z hxy hyz h1 h2
    cases hx : x.added.isSome with
    | true =>
        have hy : y.added.isSome = true := by rw [← hxy, hx]
        have hz : z.added.isSome = true := by rw [← hyz, hy]
        rw [datom_cmp_eq_txKey hx] at h1 ⊢
        rw [datom_cmp_eq_txKey hy] at h2
        exact cmpL_trans h1 h2
    | false =>
        have hy : y.added.isSome = false := by rw [← hxy, hx]
        have hz : z.added.isSome = false := by rw [← hyz, hy]
        rw [datom_cmp_eq_curKey hx] at h1 ⊢
        rw [datom_cmp_eq_curKey hy] at h2
        exact cmpL_trans h1 h2
  · intro x y hxf hyt htx he ha hv
    have hx : x.added.isSome = true := by rw [hxf]; rfl
    rw [datom_cmp_eq_txKey hx]
    apply (cmpL_lt_iff _ _).2
    unfold Datom.txKey
    rw [htx, he, ha, hv, hxf, hyt]
    apply (Prod.Lex.lt_iff _ _).2
    refine Or.inr ⟨rfl, ?_⟩
    apply (Prod.Lex.lt_iff _ _).2
    refine Or.inr ⟨rfl, ?_⟩
    apply (Prod.Lex.lt_iff _ _).2
    refine Or.inr ⟨rfl, ?_⟩
    apply (Prod.Lex.lt_iff _ _).2
    refine Or.inr ⟨rfl, ?_⟩
    apply (Prod.Lex.lt_iff _ _).2
    refine Or.inr ⟨rfl, ?_⟩
    exact Nat.one_lt_two

/-- C9 witness: the amended total-order properties instantiated at
concrete datoms. -/
theorem c9_witness :
    (datom_cmp ⟨5, 2, .string "a", 7, some true⟩ ⟨3, 2, .string "a", 9, some false⟩).swap =
      datom_cmp ⟨3, 2, .string "a", 9, some false⟩ ⟨5, 2, .string "a", 7, some true⟩ ∧
    datom_cmp ⟨1, 1, .long 0, 4, none⟩ ⟨3, 1, .long 0, 4, none⟩ = .lt ∧
    datom_cmp ⟨4, 6, .boolean true, 11, some false⟩ ⟨4, 6, .boolean true, 11, some true⟩ = .lt := by
  refine ⟨c9_datom_cmp_total_order.1 _ _ rfl, ?_, ?_⟩
  · exact c9_datom_cmp_total_order.2.1 ⟨1, 1, .long 0, 4, none⟩ ⟨2, 1, .long 0, 4, none⟩
      ⟨3, 1, .long 0, 4, none⟩ rfl rfl (by decide) (by decide)
  · exact c9_datom_cmp_total_order.2.2 _ _ rfl rfl rfl rfl rfl rfl

/-- `OpType` from `tx/src/entities.rs` (`Add` / `Retract`). -/
inductive OpType : Type where
  | add
  | retract
deriving DecidableEq, Repr

/-- `Term<E, V>` from `db/src/internal_types.rs`. -/
inductive Term (E V : Type) : Type where
  | addOrRetract (op : OpType) (e : E) (a : Entid) (v : V)
  | retractAttribute (e : E) (a : Entid)
  | retractEntity (e : E)
deriving DecidableEq, Repr

/-- `TempId` (`Rc<String>`) from `db/src/internal_types.rs`. -/
abbrev TempId := String

/-- `EntidOr<T>` = `Result<Entid, T>`: `.ok` is `Ok(entid)`, `.error` is `Err(t)`. -/
abbrev EntidOr (T : Type) := Except T Entid

/-- `TypedValueOr<T>` = `Result<TypedValue, T>`. -/
abbrev TypedValueOr (T : Type) := Except T TypedValue

abbrev TermWithTempIds := Term (EntidOr TempId) (TypedValueOr TempId)

abbrev TermWithoutTempIds := Term Entid TypedValue

/-- `Population = Vec<TermWithTempIds>`. -/
abbrev Population := List TermWithTempIds

/-- Error kinds (`DbErrorKind` / `errors::ErrorKind`) reached by the code
under study; `unreachablePanic` models `unreachable!`/failed `assert!`. -/
inductive DbErrorKind : Type where
  | timelinesInvalidTransactionIds
  | timelinesNotOnTail
  | timelinesMixed
  | timelinesNotOnMain
  | timelinesNoTransactionsSupplied
  | notYetImplemented
  | badSchemaAssertion
  | unrecognizedEntid
  | unreachablePanic
deriving DecidableEq, Repr

/-- One row of the `timelined_transactions` table:
`(e, a, v, value_type_tag, tx, added, timeline)`.  The `(v, value_type_tag)`
column pair is carried as its decoded `TypedValue` (the codec round-trips,
spec section 4.1). -/
structure TxRow : Type where
  e : Entid
  a : Entid
  v : TypedValue
  tx : Entid
  added : Bool
  timeline : Entid
deriving DecidableEq, Repr

def MAIN_TIMELINE : Entid := 0

/-- Stable insertion of a row into a tx-descending list: placed before the
first row whose `tx` is at most its own. -/
def insertDescByTx (r : TxRow) : List TxRow → List TxRow
  | [] => [r]
  | x :: xs => if x.tx ≤ r.tx then r :: x :: xs else x :: insertDescByTx r xs

/-- SQLite `ORDER BY tx DESC` modelled deterministically as a stable
descending sort: rows with equal `tx` keep their table order. -/
def sortDescByTx (rows : List TxRow) : List TxRow :=
  rows.foldr insertDescByTx []

/-- The row loop of `current_timeline` (`db/src/timelines.rs`): every row
must be in `tx_ids` (else `TimelinesNotOnTail`) and carry the timeline of
the first row (else `TimelinesMixed`). -/
def current_timeline_loop (timeline : Entid) (tx_ids : List Entid) :
    List TxRow → Except DbErrorKind Entid
  | [] => .ok timeline
  | r :: rest =>
      if r.tx ∈ tx_ids then
        if r.timeline ≠ timeline then .error .timelinesMixed
        else current_timeline_loop timeline tx_ids rest
      else .error .timelinesNotOnTail

/-- `current_timeline` from `db/src/timelines.rs`: scan every row with
`tx >= smallest_tx` (all timelines); empty result is
`TimelinesInvalidTransactionIds`; otherwise check the tail/uniform-timeline
conditions and return the shared timeline. -/
def current_timeline (db : List TxRow) (smallest_tx : Entid)
    (tx_ids : List Entid) : Except DbErrorKind Entid :=
  match db.filter (fun r => smallest_tx ≤ r.tx) with
  | [] => .error .timelinesInvalidTransactionIds
  | r :: rest =>
      if r.tx ∈ tx_ids then current_timeline_loop r.timeline tx_ids rest
      else .error .timelinesNotOnTail

/-- `reversed_terms_after` from `db/src/timelines.rs`: rows with
`tx > tx_id` on the main timeline, in descending `tx` order, each lowered
to a term with `added` flipped (`added=true` becomes `Retract`,
`added=false` becomes `Add`). -/
def reversed_terms_after (db : List TxRow) (tx_id : Entid) :
    List TermWithoutTempIds :=
  (sortDescByTx (db.filter (fun r =>
      tx_id < r.tx ∧ r.timeline = MAIN_TIMELINE))).map
    (fun r => .addOrRetract (if r.added then .retract else .add) r.e r.a r.v)

/-- `Partition` from `db/src/types.rs`. -/
structure Partition : Type where
  start : Int
  index : Int
deriving DecidableEq, Repr

/-- Modelled from the spec: `Partition::set_index` (absent from the copy of
`types.rs` under study; used by `timelines.rs`): "`set_index(partition,
value)` is reserved for rewind and must satisfy `value ≥ start`"; the
violated assertion is a panic. -/
def Partition.set_index (p : Partition) (v : Int) : Option Partition :=
  if p.start ≤ v then some { p with index := v } else none

/-- `PartitionMap = BTreeMap<String, Partition>`, as an association list. -/
abbrev PartitionMap := List (String × Partition)

def pmGet : PartitionMap → String → Option Partition
  | [], _ => none
  | kv :: rest, k => if kv.1 = k then some kv.2 else pmGet rest k

def pmSet : PartitionMap → String → Partition → PartitionMap
  | [], _, _ => []
  | kv :: rest, k, p => (if kv.1 = k then (k, p) else kv) :: pmSet rest k p

/-- `partition_map.get_mut(k)` followed by `set_index`; `None` models the
`unreachable!` on a missing partition or the `set_index` assertion. -/
def pm_set_index (pm : PartitionMap) (k : String) (v : Int) :
    Option PartitionMap :=
  match pmGet pm k with
  | some p => (p.set_index v).map (fun p2 => pmSet pm k p2)
  | none => none

/-- The observable outcome of `move_from_main_timeline`: the inverse batch
handed to `transact_terms` (before its `rewrap` to `TermWithTempIds`), the
returned partition map, and the relabelling applied to the store. -/
structure MoveResult : Type where
  batch : List TermWithoutTempIds
  partition_map : PartitionMap
  moved_txs : List Entid
  new_timeline : Entid
deriving DecidableEq, Repr

/-- `move_from_main_timeline` from `db/src/timelines.rs`.  `transact_terms`
(in `db/src/tx.rs`, not under study) receives the filtered inverse batch
against a clone of the partition map; per spec section 4.11 the resulting
rewind transaction is deleted again, and the function then relabels
`tx_ids` and resets the two partition cursors on its own copy of the map. -/
def move_from_main_timeline (db : List TxRow) (partition_map : PartitionMap)
    (tx_ids : List Entid) (new_timeline : Entid) :
    Except DbErrorKind MoveResult :=
  if new_timeline = MAIN_TIMELINE then .error .notYetImplemented else
  match tx_ids.min? with
  | none => .error .timelinesNoTransactionsSupplied
  | some smallest_tx =>
    match current_timeline db smallest_tx tx_ids with
    | .error e => .error e
    | .ok timeline =>
      if timeline ≠ MAIN_TIMELINE then .error .timelinesNotOnMain else
      match (reversed_terms_after db (smallest_tx - 1)).getLast? with
      | some (.addOrRetract _ lowest_e _ _) =>
        match pm_set_index partition_map ":db.part/user" lowest_e with
        | none => .error .unreachablePanic
        | some pm1 =>
          match pm_set_index pm1 ":db.part/tx" smallest_tx with
          | none => .error .unreachablePanic
          | some pm2 =>
            .ok { batch := (reversed_terms_after db (smallest_tx - 1)).filter
                    (fun t => match t with
                      | .addOrRetract _ _ a _ => a ≠ 1
                      | _ => true),
                  partition_map := pm2,
                  moved_txs := tx_ids, new_timeline := new_timeline }
      | _ => .error .unreachablePanic

/-- The specification's description of the inverse batch: every datom with
`tx ≥ smallest_tx` on the main timeline, read in descending `tx` order,
emitted with `added` flipped, excluding `:db/txInstant` datoms
(attribute entid 1). -/
def inverse_batch_spec (db : List TxRow) (smallest_tx : Entid) :
    List TermWithoutTempIds :=
  ((sortDescByTx (db.filter (fun r =>
      smallest_tx ≤ r.tx ∧ r.timeline = MAIN_TIMELINE))).filter
    (fun r => r.a ≠ 1)).map
    (fun r => .addOrRetract (if r.added then .retract else .add) r.e r.a r.v)

theorem filter_map_comm {α β : Type _} (f : α → β) (p : β → Bool)
    (l : List α) : (l.map f).filter p = (l.filter (fun a => p (f a))).map f := by
  induction l with
  | nil => rfl
  | cons a l ih =>
      simp only [List.map_cons, List.filter_cons]
      cases h : p (f a) <;> simp [h, ih]

/-- The batch built by `reversed_terms_after` at `min(tx_ids) - 1` and then
filtered on attribute 1 is exactly the specification's inverse batch at
`min(tx_ids)`: `tx > m - 1` coincides with `tx ≥ m` over the integers. -/
theorem reversed_filtered_eq_spec (db : List TxRow) (m : Entid) :
    (reversed_terms_after db (m - 1)).filter
      (fun t => match t with
        | .addOrRetract _ _ a _ => a ≠ 1
        | _ => true) = inverse_batch_spec db m := by
  unfold reversed_terms_after inverse_batch_spec
  rw [filter_map_comm]
  have hfilt : db.filter (fun r =>
      decide (m - 1 < r.tx ∧ r.timeline = MAIN_TIMELINE)) =
      db.filter (fun r => decide (m ≤ r.tx ∧ r.timeline = MAIN_TIMELINE)) := by
    apply List.filter_congr
    intro r _
    simp only [decide_eq_decide]
    exact and_congr_left' Int.sub_one_lt_iff
  rw [hfilt]

/-- C1: for every successful `move_from_main_timeline`, the inverse batch
handed to `transact_terms` is exactly the datoms with `tx ≥ min(tx_ids)`
on the main timeline, in descending `tx` order, each with its `added` flag
flipped, with `:db/txInstant` datoms (attribute entid 1) excluded. -/
theorem c1_inverse_batch
    (db : List TxRow) (pm : PartitionMap) (tx_ids : List Entid)
    (nt : Entid) (res : MoveResult) (smallest_tx : Entid)
    (h : move_from_main_timeline db pm tx_ids nt = .ok res)
    (hmin : tx_ids.min? = some smallest_tx) :
    res.batch = inverse_batch_spec db smallest_tx := by
  unfold move_from_main_timeline at h
  split at h
  · simp at h
  split at h
  · simp at h
  rename_i smallest_tx0 hmin0
  rw [hmin0] at hmin
  obtain rfl : smallest_tx0 = smallest_tx := Option.some.inj hmin
  split at h
  · simp at h
  split at h
  · simp at h
  split at h
  · rename_i op lowest_e a v hlast
    split at h
    · simp at h
    split at h
    · simp at h
    rename_i pm1 hpm1 pm2 hpm2
    simp only [Except.ok.injEq] at h
    subst h
    exact (reversed_filtered_eq_spec db _).symm ▸ rfl
  · simp at h

theorem pmGet_pmSet_same (pm : PartitionMap) (k : String) (p q : Partition)
    (h : pmGet pm k = some p) : pmGet (pmSet pm k q) k = some q := by
  induction pm with
  | nil => simp [pmGet] at h
  | cons kv rest ih =>
      by_cases hk : kv.1 = k
      · simp [pmGet, pmSet, hk]
      · simp only [pmGet, pmSet, if_neg hk] at h ⊢
        exact ih h

theorem pmGet_pmSet_other (pm : PartitionMap) (k k' : String) (q : Partition)
    (h : k' ≠ k) : pmGet (pmSet pm k q) k' = pmGet pm k' := by
  induction pm with
  | nil => rfl
  | cons kv rest ih =>
      by_cases hk : kv.1 = k
      · have hne : k ≠ k' := fun he => h he.symm
        simp [pmGet, pmSet, hk, hne]
        exact ih
      · simp only [pmSet, if_neg hk, pmGet]
        by_cases hk2 : kv.1 = k'
        · simp [hk2]
        · simp only [if_neg hk2]
          exact ih

theorem pm_set_index_spec (pm : PartitionMap) (k : String) (v : Int)
    (pm2 : PartitionMap) (h : pm_set_index pm k v = some pm2) :
    ∃ p, pmGet pm k = some p ∧ p.start ≤ v ∧
      pm2 = pmSet pm k { p with index := v } := by
  unfold pm_set_index at h
  cases hg : pmGet pm k with
  | none => rw [hg] at h; simp at h
  | some p =>
      rw [hg] at h
      have h2 : (Partition.set_index p v).map (fun p2 => pmSet pm k p2) =
          some pm2 := h
      unfold Partition.set_index at h2
      by_cases hle : p.start ≤ v
      · rw [if_pos hle] at h2
        have h3 : some (pmSet pm k { p with index := v }) = some pm2 := h2
        exact ⟨p, rfl, hle, (Option.some.inj h3).symm⟩
      · rw [if_neg hle] at h2
        simp at h2

/-- C2 (amended): after a successful `move_from_main_timeline`, the user
partition's `index` equals the entity id of the *last* term of the
descending-`tx`-ordered inverse batch *before* the `:db/txInstant` filter
(the code's `lowest_e`), and the tx partition's `index` equals
`min(tx_ids)`. -/
theorem c2_partition_cursors
    (db : List TxRow) (pm : PartitionMap) (tx_ids : List Entid)
    (nt : Entid) (res : MoveResult) (smallest_tx : Entid)
    (op : OpType) (lowest_e a : Entid) (v : TypedValue)
    (p_user p_tx : Partition)
    (h : move_from_main_timeline db pm tx_ids nt = .ok res)
    (hmin : tx_ids.min? = some smallest_tx)
    (hlast : (reversed_terms_after db (smallest_tx - 1)).getLast? =
      some (.addOrRetract op lowest_e a v))
    (hu : pmGet pm ":db.part/user" = some p_user)
    (ht : pmGet pm ":db.part/tx" = some p_tx) :
    pmGet res.partition_map ":db.part/user" =
      some { p_user with index := lowest_e } ∧
    pmGet res.partition_map ":db.part/tx" =
      some { p_tx with index := smallest_tx } := by
  unfold move_from_main_timeline at h
  split at h
  · simp at h
  split at h
  · simp at h
  rename_i smallest0 hmin0
  rw [hmin0] at hmin
  obtain rfl := Option.some.inj hmin
  split at h
  · simp at h
  split at h
  · simp at h
  split at h
  · rename_i op0 lowest0 a0 v0 hlast0
    rw [hlast0] at hlast
    have hinj := Option.some.inj hlast
    injection hinj with h1 h2 h3 h4
    subst h2
    split at h
    · simp at h
    rename_i pm1 hpm1
    split at h
    · simp at h
    rename_i pm2 hpm2
    simp only [Except.ok.injEq] at h
    subst h
    obtain ⟨pu, hgu, hleu, hpm1eq⟩ := pm_set_index_spec _ _ _ _ hpm1
    obtain ⟨pt, hgt, hlet, hpm2eq⟩ := pm_set_index_spec _ _ _ _ hpm2
    rw [hu] at hgu
    obtain rfl := Option.some.inj hgu
    subst hpm1eq
    rw [pmGet_pmSet_other pm ":db.part/user" ":db.part/tx" _ (by decide)] at hgt
    rw [ht] at hgt
    obtain rfl := Option.some.inj hgt
    subst hpm2eq
    constructor
    · rw [pmGet_pmSet_other _ ":db.part/tx" ":db.part/user" _ (by decide)]
      exact pmGet_pmSet_same pm _ _ _ hu
    · apply pmGet_pmSet_same
      rw [pmGet_pmSet_other pm ":db.part/user" ":db.part/tx" _ (by decide)]
      exact ht
  · simp at h

/-- C1 witness: the inverse-batch characterization instantiated on a
two-row store (one user datom and its transaction's `:db/txInstant`
datom, which is filtered out of the batch). -/
theorem c1_witness :
    ({ batch := [Term.addOrRetract .retract 3 2 (.long 7)],
       partition_map := [(":db.part/user", ⟨0, 10⟩), (":db.part/tx", ⟨10, 10⟩)],
       moved_txs := [10], new_timeline := 3 } : MoveResult).batch =
      inverse_batch_spec
        [⟨3, 2, .long 7, 10, true, 0⟩, ⟨10, 1, .instant 5, 10, true, 0⟩] 10 :=
  c1_inverse_batch
    [⟨3, 2, .long 7, 10, true, 0⟩, ⟨10, 1, .instant 5, 10, true, 0⟩]
    [(":db.part/user", ⟨0, 9⟩), (":db.part/tx", ⟨10, 11⟩)]
    [10] 3
    { batch := [Term.addOrRetract .retract 3 2 (.long 7)],
      partition_map := [(":db.part/user", ⟨0, 10⟩), (":db.part/tx", ⟨10, 10⟩)],
      moved_txs := [10], new_timeline := 3 }
    10 (by rfl) (by rfl)

/-- C2 counterexample: two datoms in the rewound transaction, table order
`e = 3` then `e = 5`.  The descending-`tx` ordered inverse batch ends with
the `e = 5` datom, so the code sets the user partition's index to `5`,
although the smallest entid observed among the batch datoms is `3` — the
claim's "smallest entid observed" description is false. -/
theorem c2_counterexample :
    move_from_main_timeline
      [⟨3, 2, .long 7, 10, true, 0⟩, ⟨5, 2, .long 8, 10, true, 0⟩]
      [(":db.part/user", ⟨0, 9⟩), (":db.part/tx", ⟨10, 11⟩)] [10] 1 =
    .ok { batch := [.addOrRetract .retract 3 2 (.long 7),
                    .addOrRetract .retract 5 2 (.long 8)],
          partition_map := [(":db.part/user", ⟨0, 5⟩), (":db.part/tx", ⟨10, 10⟩)],
          moved_txs := [10], new_timeline := 1 } ∧
    (3 : Entid) < 5 :=
  ⟨rfl, by decide⟩

/-- C2 witness: the amended cursor characterization instantiated on a
concrete store, where `lowest_e` is the entity of the transaction's own
`:db/txInstant` datom (entid 10), not a smallest user entid. -/
theorem c2_witness :
    pmGet ({ batch := [Term.addOrRetract .retract 3 2 (.long 7)],
             partition_map := [(":db.part/user", ⟨0, 10⟩),
                               (":db.part/tx", ⟨10, 10⟩)],
             moved_txs := [10], new_timeline := 3 } : MoveResult).partition_map
        ":db.part/user" = some ⟨0, 10⟩ ∧
    pmGet ({ batch := [Term.addOrRetract .retract 3 2 (.long 7)],
             partition_map := [(":db.part/user", ⟨0, 10⟩),
                               (":db.part/tx", ⟨10, 10⟩)],
             moved_txs := [10], new_timeline := 3 } : MoveResult).partition_map
        ":db.part/tx" = some ⟨10, 10⟩ :=
  c2_partition_cursors
    [⟨3, 2, .long 7, 10, true, 0⟩, ⟨10, 1, .instant 5, 10, true, 0⟩]
    [(":db.part/user", ⟨0, 9⟩), (":db.part/tx", ⟨10, 11⟩)]
    [10] 3
    { batch := [Term.addOrRetract .retract 3 2 (.long 7)],
      partition_map := [(":db.part/user", ⟨0, 10⟩), (":db.part/tx", ⟨10, 10⟩)],
      moved_txs := [10], new_timeline := 3 }
    10 .retract 10 1 (.instant 5) ⟨0, 9⟩ ⟨10, 11⟩
    (by rfl) (by rfl) (by rfl) (by rfl) (by rfl)

theorem ctl_ok (rows : List TxRow) (tl : Entid) (ids : List Entid)
    (h1 : ∀ r ∈ rows, r.tx ∈ ids) (h2 : ∀ r ∈ rows, r.timeline = tl) :
    current_timeline_loop tl ids rows = .ok tl := by
  induction rows with
  | nil => rfl
  | cons r rest ih =>
      unfold current_timeline_loop
      rw [if_pos (h1 r (List.mem_cons_self r rest)),
        if_neg (not_not_intro (h2 r (List.mem_cons_self r rest)))]
      exact ih (fun x hx => h1 x (List.mem_cons_of_mem r hx))
        (fun x hx => h2 x (List.mem_cons_of_mem r hx))

theorem ctl_notOnTail (rows : List TxRow) (tl : Entid) (ids : List Entid)
    (hsame : ∀ r ∈ rows, r.timeline = tl)
    (hex : ∃ r ∈ rows, r.tx ∉ ids) :
    current_timeline_loop tl ids rows = .error .timelinesNotOnTail := by
  induction rows with
  | nil =>
      obtain ⟨r, hr, _⟩ := hex
      exact absurd hr (List.not_mem_nil r)
  | cons r rest ih =>
      unfold current_timeline_loop
      by_cases hin : r.tx ∈ ids
      · rw [if_pos hin,
          if_neg (not_not_intro (hsame r (List.mem_cons_self r rest)))]
        apply ih (fun x hx => hsame x (List.mem_cons_of_mem r hx))
        obtain ⟨x, hx, hnx⟩ := hex
        rcases List.mem_cons.1 hx with rfl | hx2
        · exact absurd hin hnx
        · exact ⟨x, hx2, hnx⟩
      · rw [if_neg hin]

theorem ctl_mixed (rows : List TxRow) (tl : Entid) (ids : List Entid)
    (hall : ∀ r ∈ rows, r.tx ∈ ids)
    (hex : ∃ r ∈ rows, r.timeline ≠ tl) :
    current_timeline_loop tl ids rows = .error .timelinesMixed := by
  induction rows with
  | nil =>
      obtain ⟨r, hr, _⟩ := hex
      exact absurd hr (List.not_mem_nil r)
  | cons r rest ih =>
      unfold current_timeline_loop
      rw [if_pos (hall r (List.mem_cons_self r rest))]
      by_cases hm : r.timeline ≠ tl
      · rw [if_pos hm]
      · rw [if_neg hm]
        apply ih (fun x hx => hall x (List.mem_cons_of_mem r hx))
        obtain ⟨x, hx, hnx⟩ := hex
        rcases List.mem_cons.1 hx with rfl | hx2
        · exact absurd hnx hm
        · exact ⟨x, hx2, hnx⟩

theorem current_timeline_notOnTail (db : List TxRow) (m : Entid)
    (ids : List Entid)
    (hsame : ∀ r1 ∈ db, ∀ r2 ∈ db, m ≤ r1.tx → m ≤ r2.tx →
      r1.timeline = r2.timeline)
    (hex : ∃ r ∈ db, m ≤ r.tx ∧ r.tx ∉ ids) :
    current_timeline db m ids = .error .timelinesNotOnTail := by
  unfold current_timeline
  cases hrows : db.filter (fun r => decide (m ≤ r.tx)) with
  | nil =>
      obtain ⟨r, hr, hle, _⟩ := hex
      have hmem : r ∈ db.filter (fun r => decide (m ≤ r.tx)) :=
        List.mem_filter.2 ⟨hr, by simpa using hle⟩
      rw [hrows] at hmem
      exact absurd hmem (List.not_mem_nil r)
  | cons r0 rest =>
      have hmem : ∀ x ∈ r0 :: rest, x ∈ db ∧ m ≤ x.tx := by
        intro x hx
        have hx2 : x ∈ db.filter (fun r => decide (m ≤ r.tx)) := hrows ▸ hx
        have hx3 := List.mem_filter.1 hx2
        exact ⟨hx3.1, by simpa using hx3.2⟩
      change (if r0.tx ∈ ids then current_timeline_loop r0.timeline ids rest
        else Except.error DbErrorKind.timelinesNotOnTail) = _
      by_cases hin : r0.tx ∈ ids
      · rw [if_pos hin]
        have h0 := hmem r0 (List.mem_cons_self r0 rest)
        apply ctl_notOnTail
        · intro x hx
          have hx2 := hmem x (List.mem_cons_of_mem r0 hx)
          exact hsame x hx2.1 r0 h0.1 hx2.2 h0.2
        · obtain ⟨r, hr, hle, hni⟩ := hex
          have hrm : r ∈ r0 :: rest := by
            rw [← hrows]
            exact List.mem_filter.2 ⟨hr, by simpa using hle⟩
          rcases List.mem_cons.1 hrm with rfl | hr2
          · exact absurd hin hni
          · exact ⟨r, hr2, hni⟩
      · rw [if_neg hin]

theorem current_timeline_mixed (db : List TxRow) (m : Entid)
    (ids : List Entid)
    (hall : ∀ r ∈ db, m ≤ r.tx → r.tx ∈ ids)
    (hex : ∃ r1 ∈ db, ∃ r2 ∈ db, m ≤ r1.tx ∧ m ≤ r2.tx ∧
      r1.timeline ≠ r2.timeline) :
    current_timeline db m ids = .error .timelinesMixed := by
  unfold current_timeline
  cases hrows : db.filter (fun r => decide (m ≤ r.tx)) with
  | nil =>
      obtain ⟨r1, hr1, r2, hr2, hle1, hle2, _⟩ := hex
      have hmem : r1 ∈ db.filter (fun r => decide (m ≤ r.tx)) :=
        List.mem_filter.2 ⟨hr1, by simpa using hle1⟩
      rw [hrows] at hmem
      exact absurd hmem (List.not_mem_nil r1)
  | cons r0 rest =>
      have hmem : ∀ x ∈ r0 :: rest, x ∈ db ∧ m ≤ x.tx := by
        intro x hx
        have hx2 : x ∈ db.filter (fun r => decide (m ≤ r.tx)) := hrows ▸ hx
        have hx3 := List.mem_filter.1 hx2
        exact ⟨hx3.1, by simpa using hx3.2⟩
      change (if r0.tx ∈ ids then current_timeline_loop r0.timeline ids rest
        else Except.error DbErrorKind.timelinesNotOnTail) = _
      have h0 := hmem r0 (List.mem_cons_self r0 rest)
      rw [if_pos (hall r0 h0.1 h0.2)]
      apply ctl_mixed
      · intro x hx
        have hx2 := hmem x (List.mem_cons_of_mem r0 hx)
        exact hall x hx2.1 hx2.2
      · obtain ⟨r1, hr1, r2, hr2, hle1, hle2, hne⟩ := hex
        have hm1 : r1 ∈ r0 :: rest := by
          rw [← hrows]
          exact List.mem_filter.2 ⟨hr1, by simpa using hle1⟩
        have hm2 : r2 ∈ r0 :: rest := by
          rw [← hrows]
          exact List.mem_filter.2 ⟨hr2, by simpa using hle2⟩
        by_cases h1 : r1.timeline = r0.timeline
        · rcases List.mem_cons.1 hm2 with rfl | hm2b
          · exact absurd h1.symm (Ne.symm hne)
          · exact ⟨r2, hm2b, fun h => hne (h1.trans h.symm)⟩
        · rcases List.mem_cons.1 hm1 with rfl | hm1b
          · exact absurd rfl h1
          · exact ⟨r1, hm1b, h1⟩

theorem current_timeline_uniform (db : List TxRow) (m : Entid)
    (ids : List Entid) (t : Entid)
    (hall : ∀ r ∈ db, m ≤ r.tx → r.tx ∈ ids)
    (htl : ∀ r ∈ db, m ≤ r.tx → r.timeline = t)
    (hne : ∃ r ∈ db, m ≤ r.tx) :
    current_timeline db m ids = .ok t := by
  unfold current_timeline
  cases hrows : db.filter (fun r => decide (m ≤ r.tx)) with
  | nil =>
      obtain ⟨r, hr, hle⟩ := hne
      have hmem : r ∈ db.filter (fun r => decide (m ≤ r.tx)) :=
        List.mem_filter.2 ⟨hr, by simpa using hle⟩
      rw [hrows] at hmem
      exact absurd hmem (List.not_mem_nil r)
  | cons r0 rest =>
      have hmem : ∀ x ∈ r0 :: rest, x ∈ db ∧ m ≤ x.tx := by
        intro x hx
        have hx2 : x ∈ db.filter (fun r => decide (m ≤ r.tx)) := hrows ▸ hx
        have hx3 := List.mem_filter.1 hx2
        exact ⟨hx3.1, by simpa using hx3.2⟩
      change (if r0.tx ∈ ids then current_timeline_loop r0.timeline ids rest
        else Except.error DbErrorKind.timelinesNotOnTail) = _
      have h0 := hmem r0 (List.mem_cons_self r0 rest)
      rw [if_pos (hall r0 h0.1 h0.2)]
      have ht0 : r0.timeline = t := htl r0 h0.1 h0.2
      rw [← ht0]
      apply ctl_ok
      · intro x hx
        have hx2 := hmem x (List.mem_cons_of_mem r0 hx)
        exact hall x hx2.1 hx2.2
      · intro x hx
        have hx2 := hmem x (List.mem_cons_of_mem r0 hx)
        exact (htl x hx2.1 hx2.2).trans ht0.symm

/-- C8 (amended): `move_from_main_timeline` enforces its preconditions
before touching the store: it errors (`NotYetImplemented`) when the target
is the main timeline; fails with `TimelinesNoTransactionsSupplied` on empty
`tx_ids`; fails with `TimelinesNotOnTail` when some transaction with
`tx ≥ min(tx_ids)` is not in `tx_ids`, provided the scanned transactions
share one timeline label; fails with `TimelinesMixed` when all scanned
transactions are supplied but carry more than one label; and fails with
`TimelinesNotOnMain` when they uniformly carry a non-main label.  All of
these checks precede the transact/relabel/cursor steps. -/
theorem c8_preconditions :
    (∀ db pm ids, move_from_main_timeline db pm ids MAIN_TIMELINE =
      .error .notYetImplemented) ∧
    (∀ db pm nt, nt ≠ MAIN_TIMELINE →
      move_from_main_timeline db pm [] nt =
        .error .timelinesNoTransactionsSupplied) ∧
    (∀ db pm ids nt m, nt ≠ MAIN_TIMELINE → ids.min? = some m →
      (∀ r1 ∈ db, ∀ r2 ∈ db, m ≤ r1.tx → m ≤ r2.tx →
        r1.timeline = r2.timeline) →
      (∃ r ∈ db, m ≤ r.tx ∧ r.tx ∉ ids) →
      move_from_main_timeline db pm ids nt = .error .timelinesNotOnTail) ∧
    (∀ db pm ids nt m, nt ≠ MAIN_TIMELINE → ids.min? = some m →
      (∀ r ∈ db, m ≤ r.tx → r.tx ∈ ids) →
      (∃ r1 ∈ db, ∃ r2 ∈ db, m ≤ r1.tx ∧ m ≤ r2.tx ∧
        r1.timeline ≠ r2.timeline) →
      move_from_main_timeline db pm ids nt = .error .timelinesMixed) ∧
    (∀ db pm ids nt m t, nt ≠ MAIN_TIMELINE → ids.min? = some m →
      (∀ r ∈ db, m ≤ r.tx → r.tx ∈ ids) →
      (∀ r ∈ db, m ≤ r.tx → r.timeline = t) →
      (∃ r ∈ db, m ≤ r.tx) → t ≠ MAIN_TIMELINE →
      move_from_main_timeline db pm ids nt = .error .timelinesNotOnMain) := by
  refine ⟨?_, ?_, ?_, ?_, ?_⟩
  · intro db pm ids
    unfold move_from_main_timeline
    rw [if_pos rfl]
  · intro db pm nt h
    unfold move_from_main_timeline
    rw [if_neg h]
    rfl
  · intro db pm ids nt m hnt hmin hsame hex
    have hct := current_timeline_notOnTail db m ids hsame hex
    simp only [move_from_main_timeline, if_neg hnt, hmin, hct]
  · intro db pm ids nt m hnt hmin hall hex
    have hct := current_timeline_mixed db m ids hall hex
    simp only [move_from_main_timeline, if_neg hnt, hmin, hct]
  · intro db pm ids nt m t hnt hmin hall htl hne ht
    have hct := current_timeline_uniform db m ids t hall htl hne
    simp only [move_from_main_timeline, if_neg hnt, hmin, hct, if_pos ht]

/-- C8 counterexample: the claim says a transaction with `tx ≥ min(tx_ids)`
outside `tx_ids` yields `TimelinesNotOnTail`; but the row scan reports
`TimelinesMixed` first when a mixed-label supplied row precedes the
off-tail row (here tx 12 ≥ 10 is not supplied, yet the error is Mixed). -/
theorem c8_counterexample :
    move_from_main_timeline
      [⟨1, 1, .long 0, 10, true, 0⟩, ⟨1, 1, .long 0, 11, true, 5⟩,
       ⟨1, 1, .long 0, 12, true, 0⟩] [] [10, 11] 1 =
      .error .timelinesMixed ∧
    (12 : Entid) ∉ ([10, 11] : List Entid) :=
  ⟨rfl, by decide⟩

/-- C8 witness: each precondition failure exercised at a concrete input. -/
theorem c8_witness :
    move_from_main_timeline [] [] [] 0 = .error .notYetImplemented ∧
    move_from_main_timeline [] [] [] 1 =
      .error .timelinesNoTransactionsSupplied ∧
    move_from_main_timeline [⟨1, 1, .long 0, 5, true, 0⟩] [] [4] 1 =
      .error .timelinesNotOnTail ∧
    move_from_main_timeline
      [⟨1, 1, .long 0, 4, true, 0⟩, ⟨1, 1, .long 0, 5, true, 7⟩] [] [4, 5] 1 =
      .error .timelinesMixed ∧
    move_from_main_timeline [⟨1, 1, .long 0, 4, true, 3⟩] [] [4] 1 =
      .error .timelinesNotOnMain := by
  refine ⟨c8_preconditions.1 [] [] [],
    c8_preconditions.2.1 [] [] 1 (by decide), ?_, ?_, ?_⟩
  · exact c8_preconditions.2.2.1 [⟨1, 1, .long 0, 5, true, 0⟩] [] [4] 1 4
      (by decide) (by rfl) (by decide) (by decide)
  · exact c8_preconditions.2.2.2.1
      [⟨1, 1, .long 0, 4, true, 0⟩, ⟨1, 1, .long 0, 5, true, 7⟩] [] [4, 5] 1 4
      (by decide) (by rfl) (by decide) (by decide)
  · exact c8_preconditions.2.2.2.2 [⟨1, 1, .long 0, 4, true, 3⟩] [] [4] 1 4 3
      (by decide) (by rfl) (by decide) (by decide) (by decide) (by decide)

/-- Modelled from the spec: the reserved attribute entids from the missing
`db/src/entids.rs`.  The spec fixes `:db/txInstant` to entid 1; the other
recognized `:db/*` attributes and the `:db.type/...`, `:db.cardinality/...`
and `:db.unique/...` value entids are distinct reserved entids (only their
distinctness matters to the code under study). -/
def DB_TX_INSTANT : Entid := 1

def DB_DOC : Entid := 3

def DB_VALUE_TYPE : Entid := 4

def DB_CARDINALITY : Entid := 5

def DB_UNIQUE : Entid := 6

def DB_INDEX : Entid := 7

def DB_FULLTEXT : Entid := 8

def DB_IS_COMPONENT : Entid := 9

def DB_TYPE_REF : Entid := 20

def DB_TYPE_BOOLEAN : Entid := 21

def DB_TYPE_INSTANT : Entid := 22

def DB_TYPE_LONG : Entid := 23

def DB_TYPE_DOUBLE : Entid := 24

def DB_TYPE_STRING : Entid := 25

def DB_TYPE_KEYWORD : Entid := 26

def DB_TYPE_UUID : Entid := 27

def DB_CARDINALITY_MANY : Entid := 30

def DB_CARDINALITY_ONE : Entid := 31

def DB_UNIQUE_VALUE : Entid := 32

def DB_UNIQUE_IDENTITY : Entid := 33

/-- Modelled from the spec: the `Attribute` flags of the missing
`mentat_core` crate ("the schema stores flags: value_type, cardinality,
unique, index, fulltext, is_component"); this era's code reads the
`unique_identity` boolean directly (`upsert_resolution.rs`). -/
structure Attribute : Type where
  value_type : ValueType
  multival : Bool
  unique_value : Bool
  unique_identity : Bool
  index : Bool
  fulltext : Bool
  component : Bool
deriving DecidableEq, Repr

/-- `AttributeAlteration` from `db/src/metadata.rs`. -/
inductive AttributeAlteration : Type where
  | index
  | uniqueValue
  | uniqueIdentity
  | cardinality
  | noHistory
  | isComponent
deriving DecidableEq, Repr

/-- `IdentAlteration` from `db/src/metadata.rs` (the keyword is carried as
its string form). -/
inductive IdentAlteration : Type where
  | ident (kw : String)
deriving DecidableEq, Repr

/-- Modelled from the spec: `AttributeBuilder` from the missing
`db/src/schema.rs`: it accumulates the optional flag settings of one
entid's schema assertions; "a valid install requires `value_type`",
an alter must not re-declare it. -/
structure AttributeBuilder : Type where
  value_type : Option ValueType := none
  multival : Option Bool := none
  unique_value : Option Bool := none
  unique_identity : Option Bool := none
  index : Option Bool := none
  fulltext : Option Bool := none
  component : Option Bool := none
deriving DecidableEq, Repr

def AttributeBuilder.is_valid_install_attribute (b : AttributeBuilder) :
    Bool := b.value_type.isSome

def AttributeBuilder.is_valid_alter_attribute (b : AttributeBuilder) :
    Bool := b.value_type.isNone

/-- Modelled from the spec: `AttributeBuilder::build` starts from the
default attribute and overrides every flag the builder set (`value_type`
defaults to `string`, but every install path has it set). -/
def AttributeBuilder.build (b : AttributeBuilder) : Attribute :=
  { value_type := b.value_type.getD .string
    multival := b.multival.getD false
    unique_value := b.unique_value.getD false
    unique_identity := b.unique_identity.getD false
    index := b.index.getD false
    fulltext := b.fulltext.getD false
    component := b.component.getD false }

/-- Modelled from the spec: `AttributeBuilder::mutate` applies the set
flags to an existing attribute and reports the alterations
("Permitted alterations: index, unique/value, unique/identity,
cardinality, is_component"). -/
def AttributeBuilder.mutate (b : AttributeBuilder) (a : Attribute) :
    Attribute × List AttributeAlteration :=
  ({ a with
      multival := b.multival.getD a.multival
      unique_value := b.unique_value.getD a.unique_value
      unique_identity := b.unique_identity.getD a.unique_identity
      index := b.index.getD a.index
      fulltext := b.fulltext.getD a.fulltext
      component := b.component.getD a.component },
    (if b.multival.isSome then [AttributeAlteration.cardinality] else []) ++
    (if b.unique_value.isSome then [AttributeAlteration.uniqueValue] else []) ++
    (if b.unique_identity.isSome then [AttributeAlteration.uniqueIdentity]
      else []) ++
    (if b.index.isSome then [AttributeAlteration.index] else []) ++
    (if b.component.isSome then [AttributeAlteration.isComponent] else []))

/-- `SchemaMap = BTreeMap<Entid, Attribute>`, as a key-sorted association
list. -/
abbrev SchemaMap := List (Entid × Attribute)

def smGet : SchemaMap → Entid → Option Attribute
  | [], _ => none
  | (k, a) :: rest, e => if k = e then some a else smGet rest e

def smInsert : SchemaMap → Entid → Attribute → SchemaMap
  | [], e, a => [(e, a)]
  | (k, v) :: rest, e, a =>
      if e < k then (e, a) :: (k, v) :: rest
      else if e = k then (e, a) :: rest
      else (k, v) :: smInsert rest e a

/-- `BTreeMap<Entid, AttributeBuilder>` as a key-sorted association list. -/
abbrev Builders := List (Entid × AttributeBuilder)

/-- `builders.entry(entid).or_insert(default)` followed by the in-place
builder mutation `f`. -/
def buildersUpdate : Builders → Entid → (AttributeBuilder → AttributeBuilder) →
    Builders
  | [], e, f => [(e, f {})]
  | (k, b) :: rest, e, f =>
      if e < k then (e, f {}) :: (k, b) :: rest
      else if e = k then (e, f b) :: rest
      else (k, b) :: buildersUpdate rest e f

/-- One iteration of the recognition loop of
`update_schema_map_from_entid_triples` (`db/src/metadata.rs`): map the
assertion's attribute and value to a builder mutation, or fail with
`BadSchemaAssertion`.  Note the `:db/valueType` arm recognizes only the
six value entids `ref`, `boolean`, `double`, `long`, `string`, `keyword`. -/
def recognize_assertion (attr : Entid) (value : TypedValue) :
    Except DbErrorKind (AttributeBuilder → AttributeBuilder) :=
  if attr = DB_DOC then
    match value with
    | .string _ => .ok (fun b => b)
    | _ => .error .badSchemaAssertion
  else if attr = DB_VALUE_TYPE then
    match value with
    | .ref r =>
        if r = DB_TYPE_REF then
          .ok (fun b => { b with value_type := some .ref })
        else if r = DB_TYPE_BOOLEAN then
          .ok (fun b => { b with value_type := some .boolean })
        else if r = DB_TYPE_DOUBLE then
          .ok (fun b => { b with value_type := some .double })
        else if r = DB_TYPE_LONG then
          .ok (fun b => { b with value_type := some .long })
        else if r = DB_TYPE_STRING then
          .ok (fun b => { b with value_type := some .string })
        else if r = DB_TYPE_KEYWORD then
          .ok (fun b => { b with value_type := some .keyword })
        else .error .badSchemaAssertion
    | _ => .error .badSchemaAssertion
  else if attr = DB_CARDINALITY then
    match value with
    | .ref r =>
        if r = DB_CARDINALITY_MANY then
          .ok (fun b => { b with multival := some true })
        else if r = DB_CARDINALITY_ONE then
          .ok (fun b => { b with multival := some false })
        else .error .badSchemaAssertion
    | _ => .error .badSchemaAssertion
  else if attr = DB_UNIQUE then
    match value with
    | .ref r =>
        if r = DB_UNIQUE_VALUE then
          .ok (fun b => { b with unique_value := some true })
        else if r = DB_UNIQUE_IDENTITY then
          .ok (fun b => { b with unique_identity := some true })
        else .error .badSchemaAssertion
    | _ => .error .badSchemaAssertion
  else if attr = DB_INDEX then
    match value with
    | .boolean x => .ok (fun b => { b with index := some x })
    | _ => .error .badSchemaAssertion
  else if attr = DB_FULLTEXT then
    match value with
    | .boolean x => .ok (fun b => { b with fulltext := some x })
    | _ => .error .badSchemaAssertion
  else if attr = DB_IS_COMPONENT then
    match value with
    | .boolean x => .ok (fun b => { b with component := some x })
    | _ => .error .badSchemaAssertion
  else .error .badSchemaAssertion

/-- The recognition loop: group the assertions' builder mutations by
impacted entid, aborting on the first unrecognized assertion. -/
def update_builders (bs : Builders) :
    List (Entid × Entid × TypedValue) → Except DbErrorKind Builders
  | [] => .ok bs
  | (e, attr, v) :: rest =>
      match recognize_assertion attr v with
      | .error err => .error err
      | .ok f => update_builders (buildersUpdate bs e f) rest

/-- The apply loop of `update_schema_map_from_entid_triples`: walk the
builders in ascending entid order, installing (vacant entry, builder must
set `value_type`) or altering (occupied entry, builder must not set
`value_type`) as it goes.  The returned map reflects the mutations applied
*before* any failure — the Rust function mutates `schema_map` through a
`&mut` reference. -/
def apply_builders (sm : SchemaMap) :
    Builders →
    SchemaMap ×
      Except DbErrorKind (List Entid × List (Entid × List AttributeAlteration))
  | [] => (sm, .ok ([], []))
  | (e, b) :: rest =>
      match smGet sm e with
      | none =>
          if b.is_valid_install_attribute then
            match apply_builders (smInsert sm e b.build) rest with
            | (sm2, .ok (ins, alt)) => (sm2, .ok (e :: ins, alt))
            | (sm2, .error err) => (sm2, .error err)
          else (sm, .error .badSchemaAssertion)
      | some attr =>
          if b.is_valid_alter_attribute then
            match apply_builders (smInsert sm e (b.mutate attr).1) rest with
            | (sm2, .ok (ins, alt)) =>
                (sm2, .ok (ins, (e, (b.mutate attr).2) :: alt))
            | (sm2, .error err) => (sm2, .error err)
          else (sm, .error .badSchemaAssertion)

/-- `MetadataReport` from `db/src/metadata.rs`. -/
structure MetadataReport : Type where
  attributes_installed : List Entid
  attributes_altered : List (Entid × List AttributeAlteration)
  idents_altered : List (Entid × IdentAlteration)
deriving DecidableEq, Repr

/-- `update_schema_map_from_entid_triples` from `db/src/metadata.rs`.
The result pairs the final state of the `&mut SchemaMap` argument with the
`Result`: on a recognition error the map is untouched, on an apply error it
holds whatever mutations were applied before the failure. -/
def update_schema_map_from_entid_triples (schema_map : SchemaMap)
    (assertions : List (Entid × Entid × TypedValue)) :
    SchemaMap × Except DbErrorKind MetadataReport :=
  match update_builders [] assertions with
  | .error err => (schema_map, .error err)
  | .ok builders =>
      match apply_builders schema_map builders with
      | (sm2, .ok (ins, alt)) =>
          (sm2, .ok { attributes_installed := ins, attributes_altered := alt,
                      idents_altered := [] })
      | (sm2, .error err) => (sm2, .error err)

/-- C7 counterexample: a `[e :db/valueType :db.type/instant]` (and likewise
`:db.type/uuid`) assertion on a fresh entid is rejected with
`BadSchemaAssertion` — the `:db/valueType` arm of the metadata mutator has
no `Instant` or `Uuid` case — contradicting the claim that all eight value
types are accepted. -/
theorem c7_counterexample :
    update_schema_map_from_entid_triples []
      [(100, DB_VALUE_TYPE, .ref DB_TYPE_INSTANT)] =
      ([], .error .badSchemaAssertion) ∧
    update_schema_map_from_entid_triples []
      [(100, DB_VALUE_TYPE, .ref DB_TYPE_UUID)] =
      ([], .error .badSchemaAssertion) :=
  ⟨rfl, rfl⟩

/-- C7 (amended): exactly six of the eight value types are accepted by a
`[e :db/valueType :db.type/<t>]` assertion on a fresh entid — `Ref`,
`Boolean`, `Long`, `Double`, `String` and `Keyword` install an attribute
with that value type, while `Instant` and `Uuid` fail with
`BadSchemaAssertion`. -/
theorem c7_value_types :
    update_schema_map_from_entid_triples []
      [(100, DB_VALUE_TYPE, .ref DB_TYPE_REF)] =
      ([(100, ⟨.ref, false, false, false, false, false, false⟩)],
        .ok ⟨[100], [], []⟩) ∧
    update_schema_map_from_entid_triples []
      [(100, DB_VALUE_TYPE, .ref DB_TYPE_BOOLEAN)] =
      ([(100, ⟨.boolean, false, false, false, false, false, false⟩)],
        .ok ⟨[100], [], []⟩) ∧
    update_schema_map_from_entid_triples []
      [(100, DB_VALUE_TYPE, .ref DB_TYPE_LONG)] =
      ([(100, ⟨.long, false, false, false, false, false, false⟩)],
        .ok ⟨[100], [], []⟩) ∧
    update_schema_map_from_entid_triples []
      [(100, DB_VALUE_TYPE, .ref DB_TYPE_DOUBLE)] =
      ([(100, ⟨.double, false, false, false, false, false, false⟩)],
        .ok ⟨[100], [], []⟩) ∧
    update_schema_map_from_entid_triples []
      [(100, DB_VALUE_TYPE, .ref DB_TYPE_STRING)] =
      ([(100, ⟨.string, false, false, false, false, false, false⟩)],
        .ok ⟨[100], [], []⟩) ∧
    update_schema_map_from_entid_triples []
      [(100, DB_VALUE_TYPE, .ref DB_TYPE_KEYWORD)] =
      ([(100, ⟨.keyword, false, false, false, false, false, false⟩)],
        .ok ⟨[100], [], []⟩) ∧
    (update_schema_map_from_entid_triples []
      [(100, DB_VALUE_TYPE, .ref DB_TYPE_INSTANT)]).2 =
      .error .badSchemaAssertion ∧
    (update_schema_map_from_entid_triples []
      [(100, DB_VALUE_TYPE, .ref DB_TYPE_UUID)]).2 =
      .error .badSchemaAssertion :=
  ⟨rfl, rfl, rfl, rfl, rfl, rfl, rfl, rfl⟩

/-- C6 (amended): failures raised while *recognizing* assertions (the first
loop of `update_schema_map_from_entid_triples`) leave the schema map
unchanged; only apply-time failures can leave earlier installs or
alterations of the same batch applied. -/
theorem c6_schema_unchanged_on_recognition_error
    (sm : SchemaMap) (assertions : List (Entid × Entid × TypedValue))
    (err : DbErrorKind)
    (h : update_builders [] assertions = .error err) :
    update_schema_map_from_entid_triples sm assertions = (sm, .error err) := by
  unfold update_schema_map_from_entid_triples
  rw [h]

/-- C6 counterexample: the apply loop mutates the `&mut SchemaMap` as it
walks the builders and bails mid-loop, so a batch whose second builder is
an invalid install (entid 20 sets only `:db/doc`) leaves the first
builder's install (entid 10) applied even though the call fails —
mutation failure does *not* leave the schema unchanged. -/
theorem c6_counterexample :
    update_schema_map_from_entid_triples []
      [(10, DB_VALUE_TYPE, .ref DB_TYPE_LONG), (20, DB_DOC, .string "d")] =
      ([(10, ⟨.long, false, false, false, false, false, false⟩)],
        .error .badSchemaAssertion) ∧
    ([(10, (⟨.long, false, false, false, false, false, false⟩ : Attribute))] :
      SchemaMap) ≠ ([] : SchemaMap) :=
  ⟨rfl, by decide⟩

/-- C6 witness: a batch with an unrecognized assertion value
(`:db/doc` given a `Long`) fails during recognition and leaves the given
schema map exactly as it was. -/
theorem c6_witness :
    update_schema_map_from_entid_triples
      [(7, ⟨.long, false, false, false, false, false, false⟩)]
      [(10, DB_DOC, .long 5)] =
      ([(7, ⟨.long, false, false, false, false, false, false⟩)],
        .error .badSchemaAssertion) :=
  c6_schema_unchanged_on_recognition_error
    [(7, ⟨.long, false, false, false, false, false, false⟩)]
    [(10, DB_DOC, .long 5)] .badSchemaAssertion (by rfl)

theorem smGet_smInsert_other (sm : SchemaMap) (k e : Entid) (v : Attribute)
    (hne : k ≠ e) : smGet (smInsert sm k v) e = smGet sm e := by
  induction sm with
  | nil => simp [smInsert, smGet, hne]
  | cons kv rest ih =>
      obtain ⟨k0, v0⟩ := kv
      unfold smInsert
      by_cases h1 : k < k0
      · rw [if_pos h1]
        simp [smGet, hne]
      · rw [if_neg h1]
        by_cases h2 : k = k0
        · rw [if_pos h2]
          subst h2
          simp [smGet, hne]
        · rw [if_neg h2]
          simp [smGet, ih]

theorem buildersUpdate_keys (bs : Builders) (e : Entid)
    (f : AttributeBuilder → AttributeBuilder) :
    ∀ y ∈ (buildersUpdate bs e f).map Prod.fst,
      y = e ∨ y ∈ bs.map Prod.fst := by
  induction bs with
  | nil =>
      intro y hy
      simp [buildersUpdate] at hy
      exact Or.inl hy
  | cons kb rest ih =>
      obtain ⟨k, b⟩ := kb
      intro y hy
      unfold buildersUpdate at hy
      by_cases h1 : e < k
      · rw [if_pos h1] at hy
        simp only [List.map_cons, List.mem_cons] at hy
        rcases hy with rfl | rfl | hy
        · exact Or.inl rfl
        · exact Or.inr (by simp)
        · exact Or.inr (by simp [hy])
      · rw [if_neg h1] at hy
        by_cases h2 : e = k
        · rw [if_pos h2] at hy
          simp only [List.map_cons, List.mem_cons] at hy
          rcases hy with rfl | hy
          · exact Or.inl rfl
          · exact Or.inr (by simp [hy])
        · rw [if_neg h2] at hy
          simp only [List.map_cons, List.mem_cons] at hy
          rcases hy with rfl | hy
          · exact Or.inr (by simp)
          · rcases ih y hy with h | h
            · exact Or.inl h
            · exact Or.inr (by simp [h])

theorem buildersUpdate_sorted (bs : Builders) (e : Entid)
    (f : AttributeBuilder → AttributeBuilder)
    (h : (bs.map Prod.fst).Sorted (· < ·)) :
    ((buildersUpdate bs e f).map Prod.fst).Sorted (· < ·) := by
  induction bs with
  | nil => simp [buildersUpdate]
  | cons kb rest ih =>
      obtain ⟨k, b⟩ := kb
      have hk : ∀ y ∈ rest.map Prod.fst, k < y :=
        (List.sorted_cons.1 (by simpa using h)).1
      have hrest : (rest.map Prod.fst).Sorted (· < ·) :=
        (List.sorted_cons.1 (by simpa using h)).2
      unfold buildersUpdate
      by_cases h1 : e < k
      · rw [if_pos h1]
        simp only [List.map_cons]
        refine List.sorted_cons.2 ⟨?_, by simpa using h⟩
        intro y hy
        simp only [List.mem_cons] at hy
        rcases hy with rfl | hy
        · exact h1
        · exact h1.trans (hk y hy)
      · rw [if_neg h1]
        by_cases h2 : e = k
        · rw [if_pos h2]
          subst h2
          simpa using h
        · rw [if_neg h2]
          simp only [List.map_cons]
          refine List.sorted_cons.2 ⟨?_, ih hrest⟩
          intro y hy
          rcases buildersUpdate_keys rest e f y hy with rfl | hy2
          · rcases lt_trichotomy y k with h3 | h3 | h3
            · exact absurd h3 h1
            · exact absurd h3 h2
            · exact h3
          · exact hk y hy2

theorem update_builders_sorted (assertions : List (Entid × Entid × TypedValue))
    (bs bs2 : Builders)
    (h : (bs.map Prod.fst).Sorted (· < ·))
    (heq : update_builders bs assertions = .ok bs2) :
    (bs2.map Prod.fst).Sorted (· < ·) := by
  induction assertions generalizing bs with
  | nil =>
      unfold update_builders at heq
      exact (Except.ok.inj heq) ▸ h
  | cons av rest ih =>
      obtain ⟨e, attr, v⟩ := av
      unfold update_builders at heq
      cases hr : recognize_assertion attr v with
      | error err => rw [hr] at heq; simp at heq
      | ok f =>
          rw [hr] at heq
          exact ih (buildersUpdate bs e f) (buildersUpdate_sorted bs e f h) heq

theorem apply_builders_error (bs : Builders) :
    ∀ sm : SchemaMap,
    (bs.map Prod.fst).Sorted (· < ·) →
    (∃ eb ∈ bs, (smGet sm eb.1 = none ∧ eb.2.value_type = none) ∨
      (∃ a, smGet sm eb.1 = some a ∧ eb.2.value_type.isSome = true)) →
    (apply_builders sm bs).2 = .error .badSchemaAssertion := by
  induction bs with
  | nil =>
      intro sm _ hex
      obtain ⟨eb, heb, _⟩ := hex
      exact absurd heb (List.not_mem_nil eb)
  | cons kb rest ih =>
      obtain ⟨k, b⟩ := kb
      intro sm hsorted hex
      have hk : ∀ y ∈ rest.map Prod.fst, k < y :=
        (List.sorted_cons.1 (by simpa using hsorted)).1
      have hrest : (rest.map Prod.fst).Sorted (· < ·) :=
        (List.sorted_cons.1 (by simpa using hsorted)).2
      unfold apply_builders
      cases hg : smGet sm k with
      | none =>
          simp only [hg]
          by_cases hv : b.is_valid_install_attribute
          · rw [if_pos hv]
            have hexr : ∃ eb ∈ rest,
                (smGet (smInsert sm k b.build) eb.1 = none ∧
                  eb.2.value_type = none) ∨
                (∃ a, smGet (smInsert sm k b.build) eb.1 = some a ∧
                  eb.2.value_type.isSome = true) := by
              obtain ⟨eb, heb, hviol⟩ := hex
              rcases List.mem_cons.1 heb with rfl | hebr
              · exfalso
                rcases hviol with ⟨h1, h2⟩ | ⟨a, h1, h2⟩
                · unfold AttributeBuilder.is_valid_install_attribute at hv
                  rw [h2] at hv
                  simp at hv
                · rw [hg] at h1
                  exact Option.noConfusion h1
              · have hne : k ≠ eb.1 :=
                  ne_of_lt (hk eb.1 (List.mem_map_of_mem Prod.fst hebr))
                exact ⟨eb, hebr,
                  by rw [smGet_smInsert_other sm k eb.1 b.build hne]
                     exact hviol⟩
            have hrec := ih (smInsert sm k b.build) hrest hexr
            rcases hap : apply_builders (smInsert sm k b.build) rest
              with ⟨sm2, r⟩
            rw [hap] at hrec
            have hr : r = .error .badSchemaAssertion := hrec
            subst hr
            simp only [hap]
          · rw [if_neg hv]
      | some attr =>
          simp only [hg]
          by_cases hv : b.is_valid_alter_attribute
          · rw [if_pos hv]
            have hexr : ∃ eb ∈ rest,
                (smGet (smInsert sm k (b.mutate attr).1) eb.1 = none ∧
                  eb.2.value_type = none) ∨
                (∃ a2, smGet (smInsert sm k (b.mutate attr).1) eb.1 = some a2 ∧
                  eb.2.value_type.isSome = true) := by
              obtain ⟨eb, heb, hviol⟩ := hex
              rcases List.mem_cons.1 heb with rfl | hebr
              · exfalso
                rcases hviol with ⟨h1, h2⟩ | ⟨a2, h1, h2⟩
                · rw [hg] at h1
                  exact Option.noConfusion h1
                · unfold AttributeBuilder.is_valid_alter_attribute at hv
                  rw [Option.isNone_iff_eq_none.1 hv] at h2
                  simp at h2
              · have hne : k ≠ eb.1 :=
                  ne_of_lt (hk eb.1 (List.mem_map_of_mem Prod.fst hebr))
                exact ⟨eb, hebr,
                  by rw [smGet_smInsert_other sm k eb.1 (b.mutate attr).1 hne]
                     exact hviol⟩
            have hrec := ih (smInsert sm k (b.mutate attr).1) hrest hexr
            rcases hap : apply_builders (smInsert sm k (b.mutate attr).1) rest
              with ⟨sm2, r⟩
            rw [hap] at hrec
            have hr : r = .error .badSchemaAssertion := hrec
            subst hr
            simp only [hap]
          · rw [if_neg hv]

theorem apply_builders_ok (bs : Builders) :
    ∀ (sm sm2 : SchemaMap) (ins : List Entid)
      (alt : List (Entid × List AttributeAlteration)),
    (bs.map Prod.fst).Sorted (· < ·) →
    apply_builders sm bs = (sm2, .ok (ins, alt)) →
    ∀ eb ∈ bs,
      (smGet sm eb.1 = none → eb.2.value_type.isSome = true ∧ eb.1 ∈ ins) ∧
      (∀ a, smGet sm eb.1 = some a → eb.2.value_type = none ∧
        eb.1 ∈ alt.map Prod.fst) := by
  induction bs with
  | nil =>
      intro sm sm2 ins alt _ _ eb heb
      exact absurd heb (List.not_mem_nil eb)
  | cons kb rest ih =>
      obtain ⟨k, b⟩ := kb
      intro sm sm2 ins alt hsorted h eb heb
      have hk : ∀ y ∈ rest.map Prod.fst, k < y :=
        (List.sorted_cons.1 (by simpa using hsorted)).1
      have hrest : (rest.map Prod.fst).Sorted (· < ·) :=
        (List.sorted_cons.1 (by simpa using hsorted)).2
      unfold apply_builders at h
      cases hg : smGet sm k with
      | none =>
          simp only [hg] at h
          by_cases hv : b.is_valid_install_attribute
          · rw [if_pos hv] at h
            rcases hap : apply_builders (smInsert sm k b.build) rest
              with ⟨sm2x, r⟩
            rw [hap] at h
            cases r with
            | error err => simp at h
            | ok pr =>
                obtain ⟨ins2, alt2⟩ := pr
                simp only [Prod.mk.injEq, Except.ok.injEq] at h
                obtain ⟨hsm, hins, halt⟩ := h
                rcases List.mem_cons.1 heb with rfl | hebr
                · constructor
                  · intro _
                    exact ⟨hv, by rw [← hins]; exact List.mem_cons_self k ins2⟩
                  · intro a ha
                    rw [hg] at ha
                    exact Option.noConfusion ha
                · have hne : k ≠ eb.1 :=
                    ne_of_lt (hk eb.1 (List.mem_map_of_mem Prod.fst hebr))
                  have hrec := ih (smInsert sm k b.build) sm2x ins2 alt2
                    hrest hap eb hebr
                  constructor
                  · intro h0
                    have h0x : smGet (smInsert sm k b.build) eb.1 = none := by
                      rw [smGet_smInsert_other sm k eb.1 b.build hne]
                      exact h0
                    obtain ⟨hsome, hmem⟩ := hrec.1 h0x
                    exact ⟨hsome,
                      by rw [← hins]; exact List.mem_cons_of_mem k hmem⟩
                  · intro a ha
                    have hax : smGet (smInsert sm k b.build) eb.1 = some a := by
                      rw [smGet_smInsert_other sm k eb.1 b.build hne]
                      exact ha
                    obtain ⟨hnone2, hmem⟩ := hrec.2 a hax
                    exact ⟨hnone2, by rw [← halt]; exact hmem⟩
          · rw [if_neg hv] at h
            simp at h
      | some attr =>
          simp only [hg] at h
          by_cases hv : b.is_valid_alter_attribute
          · rw [if_pos hv] at h
            rcases hap : apply_builders (smInsert sm k (b.mutate attr).1) rest
              with ⟨sm2x, r⟩
            rw [hap] at h
            cases r with
            | error err => simp at h
            | ok pr =>
                obtain ⟨ins2, alt2⟩ := pr
                simp only [Prod.mk.injEq, Except.ok.injEq] at h
                obtain ⟨hsm, hins, halt⟩ := h
                rcases List.mem_cons.1 heb with rfl | hebr
                · constructor
                  · intro h0
                    rw [hg] at h0
                    exact Option.noConfusion h0
                  · intro a ha
                    refine ⟨Option.isNone_iff_eq_none.1 hv, ?_⟩
                    rw [← halt]
                    simp
                · have hne : k ≠ eb.1 :=
                    ne_of_lt (hk eb.1 (List.mem_map_of_mem Prod.fst hebr))
                  have hrec := ih (smInsert sm k (b.mutate attr).1) sm2x
                    ins2 alt2 hrest hap eb hebr
                  constructor
                  · intro h0
                    have h0x : smGet (smInsert sm k (b.mutate attr).1) eb.1 =
                        none := by
                      rw [smGet_smInsert_other sm k eb.1 (b.mutate attr).1 hne]
                      exact h0
                    obtain ⟨hsome, hmem⟩ := hrec.1 h0x
                    exact ⟨hsome, by rw [← hins]; exact hmem⟩
                  · intro a ha
                    have hax : smGet (smInsert sm k (b.mutate attr).1) eb.1 =
                        some a := by
                      rw [smGet_smInsert_other sm k eb.1 (b.mutate attr).1 hne]
                      exact ha
                    obtain ⟨hnone2, hmem⟩ := hrec.2 a hax
                    refine ⟨hnone2, ?_⟩
                    rw [← halt]
                    simp only [List.map_cons, List.mem_cons]
                    exact Or.inr hmem
          · rw [if_neg hv] at h
            simp at h

/-- C5: for every batch of schema assertions whose recognition loop
produces the builder map `builders`: a vacant entid whose builder does not
set `value_type` makes the mutator fail with `BadSchemaAssertion`; an
occupied entid whose builder sets `value_type` makes it fail with
`BadSchemaAssertion`; and on success every vacant entid is reported in
`attributes_installed` (its builder set `value_type`) and every occupied
entid in `attributes_altered` (its builder did not set `value_type`). -/
theorem c5_install_alter
    (sm : SchemaMap) (assertions : List (Entid × Entid × TypedValue))
    (builders : Builders)
    (hb : update_builders [] assertions = .ok builders) :
    (∀ eb ∈ builders, smGet sm eb.1 = none → eb.2.value_type = none →
      (update_schema_map_from_entid_triples sm assertions).2 =
        .error .badSchemaAssertion) ∧
    (∀ eb ∈ builders, ∀ a, smGet sm eb.1 = some a →
      eb.2.value_type.isSome = true →
      (update_schema_map_from_entid_triples sm assertions).2 =
        .error .badSchemaAssertion) ∧
    (∀ report, (update_schema_map_from_entid_triples sm assertions).2 =
        .ok report →
      ∀ eb ∈ builders,
        (smGet sm eb.1 = none → eb.2.value_type.isSome = true ∧
          eb.1 ∈ report.attributes_installed) ∧
        (∀ a, smGet sm eb.1 = some a → eb.2.value_type = none ∧
          eb.1 ∈ report.attributes_altered.map Prod.fst)) := by
  have hsorted : (builders.map Prod.fst).Sorted (· < ·) :=
    update_builders_sorted assertions [] builders (by simp) hb
  refine ⟨?_, ?_, ?_⟩
  · intro eb heb h1 h2
    unfold update_schema_map_from_entid_triples
    rw [hb]
    have herr := apply_builders_error builders sm hsorted
      ⟨eb, heb, Or.inl ⟨h1, h2⟩⟩
    rcases hap : apply_builders sm builders with ⟨sm2, r⟩
    rw [hap] at herr
    have hr : r = .error .badSchemaAssertion := herr
    subst hr
    simp only [hap]
  · intro eb heb a h1 h2
    unfold update_schema_map_from_entid_triples
    rw [hb]
    have herr := apply_builders_error builders sm hsorted
      ⟨eb, heb, Or.inr ⟨a, h1, h2⟩⟩
    rcases hap : apply_builders sm builders with ⟨sm2, r⟩
    rw [hap] at herr
    have hr : r = .error .badSchemaAssertion := herr
    subst hr
    simp only [hap]
  · intro report hrep eb heb
    unfold update_schema_map_from_entid_triples at hrep
    rw [hb] at hrep
    rcases hap : apply_builders sm builders with ⟨sm2, r⟩
    simp only [hap] at hrep
    cases r with
    | error err => simp at hrep
    | ok pr =>
        obtain ⟨ins, alt⟩ := pr
        simp only [Except.ok.injEq] at hrep
        have hres := apply_builders_ok builders sm sm2 ins alt hsorted hap eb heb
        rw [← hrep]
        exact hres

/-- C5 witness: an install without `value_type` fails, an alter that sets
`value_type` fails, and a mixed install/alter batch reports entid 10 as
installed and entid 7 as altered. -/
theorem c5_witness :
    (update_schema_map_from_entid_triples [] [(10, DB_DOC, .string "d")]).2 =
      .error .badSchemaAssertion ∧
    (update_schema_map_from_entid_triples
      [(7, ⟨.long, false, false, false, false, false, false⟩)]
      [(7, DB_VALUE_TYPE, .ref DB_TYPE_STRING)]).2 =
      .error .badSchemaAssertion ∧
    ((10 : Entid) ∈ (MetadataReport.mk [10]
        [(7, [AttributeAlteration.cardinality])] []).attributes_installed ∧
      (7 : Entid) ∈ (MetadataReport.mk [10]
        [(7, [AttributeAlteration.cardinality])] []).attributes_altered.map
          Prod.fst) := by
  refine ⟨?_, ?_, ?_, ?_⟩
  · exact (c5_install_alter [] [(10, DB_DOC, .string "d")] [(10, {})] rfl).1
      (10, {}) (by decide) rfl rfl
  · exact (c5_install_alter
      [(7, ⟨.long, false, false, false, false, false, false⟩)]
      [(7, DB_VALUE_TYPE, .ref DB_TYPE_STRING)]
      [(7, ⟨some .string, none, none, none, none, none, none⟩)] rfl).2.1
      (7, ⟨some .string, none, none, none, none, none, none⟩) (by decide)
      ⟨.long, false, false, false, false, false, false⟩ rfl rfl
  · exact (((c5_install_alter
      [(7, ⟨.long, false, false, false, false, false, false⟩)]
      [(7, DB_CARDINALITY, .ref DB_CARDINALITY_MANY),
       (10, DB_VALUE_TYPE, .ref DB_TYPE_STRING)]
      [(7, ⟨none, some true, none, none, none, none, none⟩),
       (10, ⟨some .string, none, none, none, none, none, none⟩)] rfl).2.2
      (MetadataReport.mk [10] [(7, [AttributeAlteration.cardinality])] []) rfl
      (10, ⟨some .string, none, none, none, none, none, none⟩)
      (by decide)).1 rfl).2
  · exact (((c5_install_alter
      [(7, ⟨.long, false, false, false, false, false, false⟩)]
      [(7, DB_CARDINALITY, .ref DB_CARDINALITY_MANY),
       (10, DB_VALUE_TYPE, .ref DB_TYPE_STRING)]
      [(7, ⟨none, some true, none, none, none, none, none⟩),
       (10, ⟨some .string, none, none, none, none, none, none⟩)] rfl).2.2
      (MetadataReport.mk [10] [(7, [AttributeAlteration.cardinality])] []) rfl
      (7, ⟨none, some true, none, none, none, none, none⟩)
      (by decide)).2 ⟨.long, false, false, false, false, false, false⟩ rfl).2

/-- `Schema` from `db/src/types.rs`: ident maps plus the entid → attribute
flags map. -/
structure Schema : Type where
  entid_map : List (Entid × String)
  ident_map : List (String × Entid)
  schema_map : SchemaMap
deriving DecidableEq, Repr

/-- Modelled from the spec: `SchemaBuilding::require_attribute_for_entid`
from the missing `db/src/schema.rs`: the attribute flags for a declared
entid, an error otherwise. -/
def Schema.require_attribute_for_entid (s : Schema) (e : Entid) :
    Except DbErrorKind Attribute :=
  match smGet s.schema_map e with
  | some a => .ok a
  | none => .error .unrecognizedEntid

/-- `DB` from `db/src/types.rs`. -/
structure DB : Type where
  partition_map : PartitionMap
  schema : Schema
  next_temp_id_idx : Int
deriving DecidableEq, Repr

/-- `PopulationType` from `db/src/upsert_resolution.rs`. -/
inductive PopulationType : Type where
  | upsertsE
  | upsertsEV
  | allocationsEV
  | allocationsE
  | allocationsV
  | inert
deriving DecidableEq, Repr

/-- `TermWithTempIds::population_type` from `db/src/upsert_resolution.rs`.
The `op == Add && is_unique(a)?` condition short-circuits, so the
attribute lookup only happens for adds; the final catch-all maps every
remaining term — including `RetractAttribute`/`RetractEntity` terms — to
`Inert`. -/
def TermWithTempIds.population_type (term : TermWithTempIds) (db : DB) :
    Except DbErrorKind PopulationType :=
  match term with
  | .addOrRetract op (.error _) a (.error _) =>
      if op = OpType.add then
        match db.schema.require_attribute_for_entid a with
        | .error e => .error e
        | .ok attr0 =>
            if attr0.unique_identity then .ok .upsertsEV
            else .ok .allocationsEV
      else .ok .allocationsEV
  | .addOrRetract op (.error _) a (.ok _) =>
      if op = OpType.add then
        match db.schema.require_attribute_for_entid a with
        | .error e => .error e
        | .ok attr0 =>
            if attr0.unique_identity then .ok .upsertsE
            else .ok .allocationsE
      else .ok .allocationsE
  | .addOrRetract _ (.ok _) _ (.error _) => .ok .allocationsV
  | _ => .ok .inert

deriving instance DecidableEq for Except

/-- `Generation` from `db/src/upsert_resolution.rs`. -/
structure Generation : Type where
  upserts_e : Population := []
  upserts_ev : Population := []
  allocations_ev : Population := []
  allocations_e : Population := []
  allocations_v : Population := []
  upserted : Population := []
  resolved : Population := []
  inert : Population := []
deriving DecidableEq, Repr

/-- `Generation::from` (the name `from` is reserved in Lean): push each
term into the population chosen by `population_type`. -/
def Generation.fromLoop (db : DB) :
    List TermWithTempIds → Generation → Except DbErrorKind Generation
  | [], g => .ok g
  | term :: rest, g =>
      match term.population_type db with
      | .error e => .error e
      | .ok pt =>
          Generation.fromLoop db rest
            (match pt with
              | .upsertsEV => { g with upserts_ev := g.upserts_ev ++ [term] }
              | .upsertsE => { g with upserts_e := g.upserts_e ++ [term] }
              | .allocationsEV =>
                  { g with allocations_ev := g.allocations_ev ++ [term] }
              | .allocationsE =>
                  { g with allocations_e := g.allocations_e ++ [term] }
              | .allocationsV =>
                  { g with allocations_v := g.allocations_v ++ [term] }
              | .inert => { g with inert := g.inert ++ [term] })

def Generation.fromTerms (terms : List TermWithTempIds) (db : DB) :
    Except DbErrorKind Generation :=
  Generation.fromLoop db terms {}

/-- `Generation::can_evolve`. -/
def Generation.can_evolve (g : Generation) : Bool := !g.upserts_e.isEmpty

/-- `TempIdMap = HashMap<TempId, Entid>`, as its lookup function. -/
abbrev TempIdMap := TempId → Option Entid

/-- `Vec`-iteration in which a non-matching term is a `panic!`
("At the disco"): `none` aborts the whole traversal. -/
def mapPanic {α β : Type _} (f : α → Option β) : List α → Option (List β)
  | [] => some []
  | x :: xs =>
      match f x, mapPanic f xs with
      | some y, some ys => some (y :: ys)
      | _, _ => none

/-- The destination field a term is pushed to in `evolve_one_step`. -/
inductive GenField : Type where
  | upsertsE
  | upsertsEV
  | allocationsEV
  | allocationsE
  | allocationsV
  | upserted
  | resolved
  | inert
deriving DecidableEq, Repr

/-- The `upserts_e` loop body of `Generation::evolve_one_step`. -/
def evolveUpsertsE (m : TempIdMap) :
    TermWithTempIds → Option (GenField × TermWithTempIds)
  | .addOrRetract op (.error t) a v =>
      match m t with
      | some n => some (.upserted, .addOrRetract op (.ok n) a v)
      | none => some (.allocationsE, .addOrRetract op (.error t) a v)
  | _ => none

/-- The `upserts_ev` loop body of `Generation::evolve_one_step`. -/
def evolveUpsertsEV (m : TempIdMap) :
    TermWithTempIds → Option (GenField × TermWithTempIds)
  | .addOrRetract op (.error t1) a (.error t2) =>
      match m t1, m t2 with
      | some n1, some n2 =>
          some (.resolved, .addOrRetract op (.ok n1) a (.ok (.ref n2)))
      | none, some n2 =>
          some (.upsertsE, .addOrRetract op (.error t1) a (.ok (.ref n2)))
      | some n1, none =>
          some (.allocationsV, .addOrRetract op (.ok n1) a (.error t2))
      | none, none =>
          some (.allocationsEV, .addOrRetract op (.error t1) a (.error t2))
  | _ => none

/-- The `allocations_ev` loop body of `Generation::evolve_one_step`. -/
def evolveAllocationsEV (m : TempIdMap) :
    TermWithTempIds → Option (GenField × TermWithTempIds)
  | .addOrRetract op (.error t1) a (.error t2) =>
      match m t1, m t2 with
      | some n1, some n2 =>
          some (.resolved, .addOrRetract op (.ok n1) a (.ok (.ref n2)))
      | none, some n2 =>
          some (.allocationsE, .addOrRetract op (.error t1) a (.ok (.ref n2)))
      | some n1, none =>
          some (.allocationsV, .addOrRetract op (.ok n1) a (.error t2))
      | none, none =>
          some (.allocationsEV, .addOrRetract op (.error t1) a (.error t2))
  | _ => none

/-- The `allocations_e` loop body of `Generation::evolve_one_step`. -/
def evolveAllocationsE (m : TempIdMap) :
    TermWithTempIds → Option (GenField × TermWithTempIds)
  | .addOrRetract op (.error t) a v =>
      match m t with
      | some n => some (.resolved, .addOrRetract op (.ok n) a v)
      | none => some (.allocationsE, .addOrRetract op (.error t) a v)
  | _ => none

/-- The `allocations_v` loop body of `Generation::evolve_one_step`. -/
def evolveAllocationsV (m : TempIdMap) :
    TermWithTempIds → Option (GenField × TermWithTempIds)
  | .addOrRetract op e a (.error t) =>
      match m t with
      | some n => some (.resolved, .addOrRetract op e a (.ok (.ref n)))
      | none => some (.allocationsV, .addOrRetract op e a (.error t))
  | _ => none

/-- Collect the terms pushed to a given field, in push order. -/
def picks (d : GenField) (l : List (GenField × TermWithTempIds)) : Population :=
  (l.filter (fun x => x.1 = d)).map (fun x => x.2)

/-- `Generation::evolve_one_step`: run the five loops (panic on a
malformed term), assembling the next generation from the pushes in loop
order.  Note that nothing is pushed to `upserts_ev`, that `self.upserted`
and `self.resolved` are dropped (next starts from `Generation::default()`),
and that `inert` is carried over unchanged. -/
def Generation.evolve_one_step (g : Generation) (m : TempIdMap) :
    Option Generation :=
  match mapPanic (evolveUpsertsE m) g.upserts_e,
        mapPanic (evolveUpsertsEV m) g.upserts_ev,
        mapPanic (evolveAllocationsEV m) g.allocations_ev,
        mapPanic (evolveAllocationsE m) g.allocations_e,
        mapPanic (evolveAllocationsV m) g.allocations_v with
  | some r1, some r2, some r3, some r4, some r5 =>
      some {
        upserts_e := picks .upsertsE r2,
        upserts_ev := [],
        allocations_ev := picks .allocationsEV r2 ++ picks .allocationsEV r3,
        allocations_e := picks .allocationsE r1 ++ picks .allocationsE r3 ++
          picks .allocationsE r4,
        allocations_v := picks .allocationsV r2 ++ picks .allocationsV r3 ++
          picks .allocationsV r5,
        upserted := picks .upserted r1,
        resolved := picks .resolved r2 ++ picks .resolved r3 ++
          picks .resolved r4 ++ picks .resolved r5,
        inert := g.inert }
  | _, _, _, _, _ => none

/-- The `while generation.can_evolve` driver loop, one `TempIdMap` per
round (the transactor recomputes the map each round). -/
def evolveLoop : List TempIdMap → Generation → Option Generation
  | [], g => some g
  | m :: rest, g =>
      if g.can_evolve then (g.evolve_one_step m).bind (evolveLoop rest)
      else some g

/-- C4: the final catch-all of `population_type` classifies
`RetractAttribute`/`RetractEntity` terms whose entity place is a tempid as
`Inert`, although they reference a temp ID.  This contradicts the code's
own doc for `Inert` ("Entities that do not reference temp IDs") and the
`TODO: ensure :db/retract{Entity,Attribute} are pushed into Allocations*
correctly" right above it. -/
theorem c4_retract_with_tempid_classified_inert :
    TermWithTempIds.population_type (Term.retractAttribute (.error "t") 10)
      (DB.mk [] (Schema.mk [] [] []) (-1000000)) = .ok .inert ∧
    TermWithTempIds.population_type (Term.retractEntity (.error "t"))
      (DB.mk [] (Schema.mk [] [] []) (-1000000)) = .ok .inert :=
  ⟨rfl, rfl⟩

theorem mapPanic_length {α β : Type _} (f : α → Option β) (l : List α)
    (r : List β) (h : mapPanic f l = some r) : r.length = l.length := by
  induction l generalizing r with
  | nil =>
      simp [mapPanic] at h
      subst h
      rfl
  | cons x xs ih =>
      unfold mapPanic at h
      cases hf : f x with
      | none => rw [hf] at h; simp at h
      | some y =>
          cases hm : mapPanic f xs with
          | none => rw [hf, hm] at h; simp at h
          | some ys =>
              rw [hf, hm] at h
              simp only [Option.some.injEq] at h
              subst h
              simp [ih ys hm]

theorem mapPanic_isSome {α β : Type _} (f : α → Option β) (l : List α)
    (h : ∀ x ∈ l, (f x).isSome = true) : ∃ r, mapPanic f l = some r := by
  induction l with
  | nil => exact ⟨[], rfl⟩
  | cons x xs ih =>
      obtain ⟨ys, hys⟩ := ih (fun z hz => h z (List.mem_cons_of_mem x hz))
      have hx := h x (List.mem_cons_self x xs)
      cases hf : f x with
      | none => rw [hf] at hx; simp at hx
      | some y =>
          refine ⟨y :: ys, ?_⟩
          unfold mapPanic
          rw [hf, hys]

theorem mapPanic_mem_rev {α β : Type _} (f : α → Option β) (l : List α)
    (r : List β) (h : mapPanic f l = some r) :
    ∀ y ∈ r, ∃ x ∈ l, f x = some y := by
  induction l generalizing r with
  | nil =>
      simp [mapPanic] at h
      subst h
      intro y hy
      exact absurd hy (List.not_mem_nil y)
  | cons x xs ih =>
      unfold mapPanic at h
      cases hf : f x with
      | none => rw [hf] at h; simp at h
      | some y0 =>
          cases hm : mapPanic f xs with
          | none => rw [hf, hm] at h; simp at h
          | some ys =>
              rw [hf, hm] at h
              simp only [Option.some.injEq] at h
              subst h
              intro y hy
              rcases List.mem_cons.1 hy with rfl | hy2
              · exact ⟨x, List.mem_cons_self x xs, hf⟩
              · obtain ⟨x2, hx2, hfx2⟩ := ih ys hm y hy2
                exact ⟨x2, List.mem_cons_of_mem x hx2, hfx2⟩

theorem mapPanic_mem {α β : Type _} (f : α → Option β) (l : List α)
    (r : List β) (h : mapPanic f l = some r) :
    ∀ x ∈ l, ∃ y ∈ r, f x = some y := by
  induction l generalizing r with
  | nil =>
      intro x hx
      exact absurd hx (List.not_mem_nil x)
  | cons x0 xs ih =>
      unfold mapPanic at h
      cases hf : f x0 with
      | none => rw [hf] at h; simp at h
      | some y0 =>
          cases hm : mapPanic f xs with
          | none => rw [hf, hm] at h; simp at h
          | some ys =>
              rw [hf, hm] at h
              simp only [Option.some.injEq] at h
              subst h
              intro x hx
              rcases List.mem_cons.1 hx with rfl | hx2
              · exact ⟨y0, List.mem_cons_self y0 ys, hf⟩
              · obtain ⟨y, hy, hfy⟩ := ih ys hm x hx2
                exact ⟨y, List.mem_cons_of_mem y0 hy, hfy⟩

theorem picks_length_le (d : GenField) (l : List (GenField × TermWithTempIds)) :
    (picks d l).length ≤ l.length := by
  unfold picks
  rw [List.length_map]
  exact List.length_filter_le _ l

theorem mem_picks (d : GenField) (l : List (GenField × TermWithTempIds))
    (t : TermWithTempIds) : t ∈ picks d l ↔ (d, t) ∈ l := by
  unfold picks
  constructor
  · intro h
    obtain ⟨x, hx, hxt⟩ := List.mem_map.1 h
    have hx2 := List.mem_filter.1 hx
    have hd : x.1 = d := by simpa using hx2.2
    have : x = (d, t) := Prod.ext hd hxt
    exact this ▸ hx2.1
  · intro h
    exact List.mem_map.2 ⟨(d, t), List.mem_filter.2 ⟨h, by simp⟩, rfl⟩

/-- The canonical shape of a term held in `upserts_e`/`allocations_e`:
the entity place is a tempid. -/
def wfUE (t : TermWithTempIds) : Prop :=
  ∃ op tid a v, t = Term.addOrRetract op (.error tid) a v

/-- The canonical shape of a term held in `upserts_ev`/`allocations_ev`:
both entity and value places are tempids. -/
def wfEV (t : TermWithTempIds) : Prop :=
  ∃ op t1 a t2, t = Term.addOrRetract op (.error t1) a (.error t2)

/-- The canonical shape of a term held in `allocations_v`: the value place
is a tempid. -/
def wfAV (t : TermWithTempIds) : Prop :=
  ∃ op e a tid, t = Term.addOrRetract op e a (.error tid)

/-- The shape invariant a term pushed to a given field must satisfy for the
next `evolve_one_step` not to panic. -/
def dest_wf : GenField → TermWithTempIds → Prop
  | .upsertsE, t => wfUE t
  | .upsertsEV, t => wfEV t
  | .allocationsEV, t => wfEV t
  | .allocationsE, t => wfUE t
  | .allocationsV, t => wfAV t
  | _, _ => True

/-- The `Generation` invariant maintained by `Generation::from` and
`evolve_one_step`: every queued term matches the shape its loop
destructures (else the Rust code panics "At the disco"). -/
def Generation.wellFormed (g : Generation) : Prop :=
  (∀ t ∈ g.upserts_e, wfUE t) ∧ (∀ t ∈ g.upserts_ev, wfEV t) ∧
  (∀ t ∈ g.allocations_ev, wfEV t) ∧ (∀ t ∈ g.allocations_e, wfUE t) ∧
  (∀ t ∈ g.allocations_v, wfAV t)

theorem evolveUpsertsE_dest (m : TempIdMap) (x : TermWithTempIds)
    (d : GenField) (t : TermWithTempIds)
    (h : evolveUpsertsE m x = some (d, t)) : dest_wf d t := by
  cases x with
  | addOrRetract op e a v =>
      cases e with
      | ok n => simp [evolveUpsertsE] at h
      | error tid =>
          simp only [evolveUpsertsE] at h
          cases hm : m tid with
          | none =>
              rw [hm] at h
              simp only [Option.some.injEq, Prod.mk.injEq] at h
              obtain ⟨hd, ht⟩ := h
              subst hd
              subst ht
              exact ⟨op, tid, a, v, rfl⟩
          | some n =>
              rw [hm] at h
              simp only [Option.some.injEq, Prod.mk.injEq] at h
              obtain ⟨hd, ht⟩ := h
              subst hd
              subst ht
              trivial
  | retractAttribute e a => simp [evolveUpsertsE] at h
  | retractEntity e => simp [evolveUpsertsE] at h

theorem evolveUpsertsEV_dest (m : TempIdMap) (x : TermWithTempIds)
    (d : GenField) (t : TermWithTempIds)
    (h : evolveUpsertsEV m x = some (d, t)) : dest_wf d t := by
  cases x with
  | addOrRetract op e a v =>
      cases e with
      | ok n => simp [evolveUpsertsEV] at h
      | error t1 =>
          cases v with
          | ok vv => simp [evolveUpsertsEV] at h
          | error t2 =>
              simp only [evolveUpsertsEV] at h
              cases hm1 : m t1 <;> cases hm2 : m t2 <;>
                rw [hm1, hm2] at h <;>
                simp only [Option.some.injEq, Prod.mk.injEq] at h <;>
                obtain ⟨hd, ht⟩ := h <;> subst hd <;> subst ht
              · exact ⟨op, t1, a, t2, rfl⟩
              · exact ⟨op, t1, a, _, rfl⟩
              · exact ⟨op, _, a, t2, rfl⟩
              · trivial
  | retractAttribute e a => simp [evolveUpsertsEV] at h
  | retractEntity e => simp [evolveUpsertsEV] at h

theorem evolveAllocationsEV_dest (m : TempIdMap) (x : TermWithTempIds)
    (d : GenField) (t : TermWithTempIds)
    (h : evolveAllocationsEV m x = some (d, t)) : dest_wf d t := by
  cases x with
  | addOrRetract op e a v =>
      cases e with
      | ok n => simp [evolveAllocationsEV] at h
      | error t1 =>
          cases v with
          | ok vv => simp [evolveAllocationsEV] at h
          | error t2 =>
              simp only [evolveAllocationsEV] at h
              cases hm1 : m t1 <;> cases hm2 : m t2 <;>
                rw [hm1, hm2] at h <;>
                simp only [Option.some.injEq, Prod.mk.injEq] at h <;>
                obtain ⟨hd, ht⟩ := h <;> subst hd <;> subst ht
              · exact ⟨op, t1, a, t2, rfl⟩
              · exact ⟨op, t1, a, _, rfl⟩
              · exact ⟨op, _, a, t2, rfl⟩
              · trivial
  | retractAttribute e a => simp [evolveAllocationsEV] at h
  | retractEntity e => simp [evolveAllocationsEV] at h

theorem evolveAllocationsE_dest (m : TempIdMap) (x : TermWithTempIds)
    (d : GenField) (t : TermWithTempIds)
    (h : evolveAllocationsE m x = some (d, t)) : dest_wf d t := by
  cases x with
  | addOrRetract op e a v =>
      cases e with
      | ok n => simp [evolveAllocationsE] at h
      | error tid =>
          simp only [evolveAllocationsE] at h
          cases hm : m tid with
          | none =>
              rw [hm] at h
              simp only [Option.some.injEq, Prod.mk.injEq] at h
              obtain ⟨hd, ht⟩ := h
              subst hd
              subst ht
              exact ⟨op, tid, a, v, rfl⟩
          | some n =>
              rw [hm] at h
              simp only [Option.some.injEq, Prod.mk.injEq] at h
              obtain ⟨hd, ht⟩ := h
              subst hd
              subst ht
              trivial
  | retractAttribute e a => simp [evolveAllocationsE] at h
  | retractEntity e => simp [evolveAllocationsE] at h

theorem evolveAllocationsV_dest (m : TempIdMap) (x : TermWithTempIds)
    (d : GenField) (t : TermWithTempIds)
    (h : evolveAllocationsV m x = some (d, t)) : dest_wf d t := by
  cases x with
  | addOrRetract op e a v =>
      cases v with
      | ok vv => simp [evolveAllocationsV] at h
      | error tid =>
          simp only [evolveAllocationsV] at h
          cases hm : m tid with
          | none =>
              rw [hm] at h
              simp only [Option.some.injEq, Prod.mk.injEq] at h
              obtain ⟨hd, ht⟩ := h
              subst hd
              subst ht
              exact ⟨op, e, a, tid, rfl⟩
          | some n =>
              rw [hm] at h
              simp only [Option.some.injEq, Prod.mk.injEq] at h
              obtain ⟨hd, ht⟩ := h
              subst hd
              subst ht
              trivial
  | retractAttribute e a => simp [evolveAllocationsV] at h
  | retractEntity e => simp [evolveAllocationsV] at h

/-- On a well-formed generation, `evolve_one_step` cannot panic, the next
generation is well formed, nothing remains in `upserts_ev`, and the new
`upserts_e` (fed only by `UpsertEV` promotions) is no larger than the old
`upserts_ev`. -/
theorem evolve_one_step_sound (g : Generation) (m : TempIdMap)
    (hwf : g.wellFormed) :
    ∃ g2, g.evolve_one_step m = some g2 ∧ g2.wellFormed ∧
      g2.upserts_ev = [] ∧ g2.upserts_e.length ≤ g.upserts_ev.length := by
  obtain ⟨hwf1, hwf2, hwf3, hwf4, hwf5⟩ := hwf
  obtain ⟨r1, hr1⟩ := mapPanic_isSome (evolveUpsertsE m) g.upserts_e
    (fun t ht => by
      obtain ⟨op, tid, a, v, rfl⟩ := hwf1 t ht
      simp only [evolveUpsertsE]
      cases m tid <;> rfl)
  obtain ⟨r2, hr2⟩ := mapPanic_isSome (evolveUpsertsEV m) g.upserts_ev
    (fun t ht => by
      obtain ⟨op, t1, a, t2, rfl⟩ := hwf2 t ht
      simp only [evolveUpsertsEV]
      cases m t1 <;> cases m t2 <;> rfl)
  obtain ⟨r3, hr3⟩ := mapPanic_isSome (evolveAllocationsEV m) g.allocations_ev
    (fun t ht => by
      obtain ⟨op, t1, a, t2, rfl⟩ := hwf3 t ht
      simp only [evolveAllocationsEV]
      cases m t1 <;> cases m t2 <;> rfl)
  obtain ⟨r4, hr4⟩ := mapPanic_isSome (evolveAllocationsE m) g.allocations_e
    (fun t ht => by
      obtain ⟨op, tid, a, v, rfl⟩ := hwf4 t ht
      simp only [evolveAllocationsE]
      cases m tid <;> rfl)
  obtain ⟨r5, hr5⟩ := mapPanic_isSome (evolveAllocationsV m) g.allocations_v
    (fun t ht => by
      obtain ⟨op, e, a, tid, rfl⟩ := hwf5 t ht
      simp only [evolveAllocationsV]
      cases m tid <;> rfl)
  refine ⟨{ upserts_e := picks .upsertsE r2,
            upserts_ev := [],
            allocations_ev :=
              picks .allocationsEV r2 ++ picks .allocationsEV r3,
            allocations_e := picks .allocationsE r1 ++
              picks .allocationsE r3 ++ picks .allocationsE r4,
            allocations_v := picks .allocationsV r2 ++
              picks .allocationsV r3 ++ picks .allocationsV r5,
            upserted := picks .upserted r1,
            resolved := picks .resolved r2 ++ picks .resolved r3 ++
              picks .resolved r4 ++ picks .resolved r5,
            inert := g.inert }, ?_, ?_, rfl, ?_⟩
  · unfold Generation.evolve_one_step
    rw [hr1, hr2, hr3, hr4, hr5]
  · refine ⟨?_, ?_, ?_, ?_, ?_⟩
    · intro t ht
      obtain ⟨x, _, hfx⟩ :=
        mapPanic_mem_rev _ _ _ hr2 _ ((mem_picks _ _ _).1 ht)
      exact evolveUpsertsEV_dest m x _ t hfx
    · intro t ht
      exact absurd ht (List.not_mem_nil t)
    · intro t ht
      rcases List.mem_append.1 ht with h | h
      · obtain ⟨x, _, hfx⟩ :=
          mapPanic_mem_rev _ _ _ hr2 _ ((mem_picks _ _ _).1 h)
        exact evolveUpsertsEV_dest m x _ t hfx
      · obtain ⟨x, _, hfx⟩ :=
          mapPanic_mem_rev _ _ _ hr3 _ ((mem_picks _ _ _).1 h)
        exact evolveAllocationsEV_dest m x _ t hfx
    · intro t ht
      rcases List.mem_append.1 ht with h | h
      · rcases List.mem_append.1 h with h0 | h0
        · obtain ⟨x, _, hfx⟩ :=
            mapPanic_mem_rev _ _ _ hr1 _ ((mem_picks _ _ _).1 h0)
          exact evolveUpsertsE_dest m x _ t hfx
        · obtain ⟨x, _, hfx⟩ :=
            mapPanic_mem_rev _ _ _ hr3 _ ((mem_picks _ _ _).1 h0)
          exact evolveAllocationsEV_dest m x _ t hfx
      · obtain ⟨x, _, hfx⟩ :=
          mapPanic_mem_rev _ _ _ hr4 _ ((mem_picks _ _ _).1 h)
        exact evolveAllocationsE_dest m x _ t hfx
    · intro t ht
      rcases List.mem_append.1 ht with h | h
      · rcases List.mem_append.1 h with h0 | h0
        · obtain ⟨x, _, hfx⟩ :=
            mapPanic_mem_rev _ _ _ hr2 _ ((mem_picks _ _ _).1 h0)
          exact evolveUpsertsEV_dest m x _ t hfx
        · obtain ⟨x, _, hfx⟩ :=
            mapPanic_mem_rev _ _ _ hr3 _ ((mem_picks _ _ _).1 h0)
          exact evolveAllocationsEV_dest m x _ t hfx
      · obtain ⟨x, _, hfx⟩ :=
          mapPanic_mem_rev _ _ _ hr5 _ ((mem_picks _ _ _).1 h)
        exact evolveAllocationsV_dest m x _ t hfx
  · exact le_trans (picks_length_le .upsertsE r2)
      (le_of_eq (mapPanic_length _ _ _ hr2))

theorem evolveLoop_terminates (maps : List TempIdMap) :
    ∀ g : Generation, g.wellFormed →
    g.upserts_e.length + g.upserts_ev.length ≤ maps.length →
    ∃ g2, evolveLoop maps g = some g2 ∧ g2.upserts_e = [] := by
  induction maps with
  | nil =>
      intro g _ hlen
      have hue : g.upserts_e = [] := by
        have : g.upserts_e.length = 0 := by
          simp only [List.length_nil] at hlen
          omega
        exact List.length_eq_zero.1 this
      exact ⟨g, rfl, hue⟩
  | cons m rest ih =>
      intro g hwf hlen
      unfold evolveLoop
      by_cases hc : g.can_evolve = true
      · rw [if_pos hc]
        obtain ⟨g2, heq, hwf2, huev, hle⟩ := evolve_one_step_sound g m hwf
        have hpos : 1 ≤ g.upserts_e.length := by
          unfold Generation.can_evolve at hc
          rcases hgu : g.upserts_e with _ | ⟨x, xs⟩
          · rw [hgu] at hc; simp at hc
          · simp
        have hm : g2.upserts_e.length + g2.upserts_ev.length ≤ rest.length := by
          rw [huev]
          simp only [List.length_cons] at hlen
          simp only [List.length_nil]
          omega
        obtain ⟨g3, hg3, hue3⟩ := ih g2 hwf2 hm
        refine ⟨g3, ?_, hue3⟩
        rw [heq]
        simpa using hg3
      · rw [if_neg hc]
        have hue : g.upserts_e = [] := by
          unfold Generation.can_evolve at hc
          rcases hgu : g.upserts_e with _ | ⟨x, xs⟩
          · rfl
          · rw [hgu] at hc; simp at hc
        exact ⟨g, rfl, hue⟩

/-- C3: on every well-formed generation, while `can_evolve` holds each
`evolve_one_step` strictly decreases the number of `UpsertE` terms or
strictly shrinks `upserts_ev` (indeed the combined `|UpsertE| + |UpsertEV|`
measure strictly decreases), and iterating the step (with arbitrary
per-round tempid maps) reaches a generation with `upserts_e` empty after
at most `|UpsertE| + |UpsertEV|` rounds. -/
theorem c3_termination (g : Generation) (hwf : g.wellFormed) :
    (∀ m : TempIdMap, g.can_evolve = true →
      ∃ g2, g.evolve_one_step m = some g2 ∧
        (g2.upserts_e.length < g.upserts_e.length ∨
          g2.upserts_ev.length < g.upserts_ev.length) ∧
        g2.upserts_e.length + g2.upserts_ev.length <
          g.upserts_e.length + g.upserts_ev.length) ∧
    (∀ maps : List TempIdMap,
      g.upserts_e.length + g.upserts_ev.length ≤ maps.length →
      ∃ g2, evolveLoop maps g = some g2 ∧ g2.upserts_e = []) := by
  constructor
  · intro m hc
    obtain ⟨g2, heq, hwf2, huev, hle⟩ := evolve_one_step_sound g m hwf
    have hpos : 1 ≤ g.upserts_e.length := by
      unfold Generation.can_evolve at hc
      rcases hgu : g.upserts_e with _ | ⟨x, xs⟩
      · rw [hgu] at hc; simp at hc
      · simp
    refine ⟨g2, heq, ?_, ?_⟩
    · by_cases hev : g.upserts_ev.length = 0
      · left
        rw [hev] at hle
        omega
      · right
        rw [huev]
        simp only [List.length_nil]
        omega
    · rw [huev]
      simp only [List.length_nil]
      omega
  · intro maps hlen
    exact evolveLoop_terminates maps g hwf hlen

/-- C3 witness: a generation with one simple upsert evolves, under a map
resolving its tempid, to a generation with `upserts_e` empty in one round. -/
theorem c3_witness :
    evolveLoop [fun t => if t = "t" then some 5 else none]
      { upserts_e := [Term.addOrRetract .add (.error "t") 2 (.ok (.long 7))] } =
      some { upserted := [Term.addOrRetract .add (.ok 5) 2 (.ok (.long 7))] } ∧
    ({ upserted := [Term.addOrRetract .add (.ok 5) 2 (.ok (.long 7))] } :
      Generation).upserts_e = [] := by
  have hwf : ({ upserts_e :=
      [Term.addOrRetract .add (.error "t") 2 (.ok (.long 7))] } :
      Generation).wellFormed := by
    refine ⟨?_, ?_, ?_, ?_, ?_⟩
    · intro t ht
      simp only [List.mem_singleton] at ht
      subst ht
      exact ⟨.add, "t", 2, .ok (.long 7), rfl⟩
    · intro t ht; exact absurd ht (List.not_mem_nil t)
    · intro t ht; exact absurd ht (List.not_mem_nil t)
    · intro t ht; exact absurd ht (List.not_mem_nil t)
    · intro t ht; exact absurd ht (List.not_mem_nil t)
  obtain ⟨g2, h1, h2⟩ := (c3_termination _ hwf).2
    [fun t => if t = "t" then some 5 else none] (by decide)
  have he : g2 =
      { upserted := [Term.addOrRetract .add (.ok 5) 2 (.ok (.long 7))] } := by
    have hr : evolveLoop [fun t => if t = "t" then some 5 else none]
        { upserts_e :=
          [Term.addOrRetract .add (.error "t") 2 (.ok (.long 7))] } =
        some { upserted :=
          [Term.addOrRetract .add (.ok 5) 2 (.ok (.long 7))] } := rfl
    exact Option.some.inj (h1.symm.trans hr)
  exact ⟨he ▸ h1, he ▸ h2⟩

/-- The `upserts_e`/`allocations_e` mapper of `Generation::temp_ids_iter`
(`i1`): the entity place must be a tempid, else panic. -/
def temp_ids_of_i1 : TermWithTempIds → Option TempId
  | .addOrRetract _ (.error t) _ _ => some t
  | _ => none

/-- The `upserts_ev`/`allocations_ev` mapper (`i2`): both places must be
tempids, yielding both. -/
def temp_ids_of_i2 : TermWithTempIds → Option (List TempId)
  | .addOrRetract _ (.error t1) _ (.error t2) => some [t1, t2]
  | _ => none

/-- The `allocations_v` mapper (`i3`): the value place must be a tempid. -/
def temp_ids_of_i3 : TermWithTempIds → Option TempId
  | .addOrRetract _ _ _ (.error t) => some t
  | _ => none

/-- `Generation::temp_ids_iter`: the temp IDs of the populations still
requiring allocation, in iterator order (`none` models a panic on a
malformed term).  Note it does not look at `resolved`, `upserted` or
`inert`, and for an `allocations_v` term only the value-side tempid is
produced. -/
def Generation.temp_ids_iter (g : Generation) : Option (List TempId) :=
  match mapPanic temp_ids_of_i1 (g.upserts_e ++ g.allocations_e),
        mapPanic temp_ids_of_i2 (g.upserts_ev ++ g.allocations_ev),
        mapPanic temp_ids_of_i3 g.allocations_v with
  | some l1, some l2, some l3 => some (l1 ++ l2.flatten ++ l3)
  | _, _, _ => none

/-- The `i1` lowering of `Generation::into_allocated_iter`: matched by
term *shape*, not by source population; every tempid must be in the map,
else panic. -/
def lower_alloc (m : TempIdMap) : TermWithTempIds → Option TermWithoutTempIds
  | .addOrRetract op (.error t1) a (.error t2) =>
      match m t1, m t2 with
      | some n1, some n2 => some (.addOrRetract op n1 a (.ref n2))
      | _, _ => none
  | .addOrRetract op (.error t) a (.ok v) =>
      match m t with
      | some n => some (.addOrRetract op n a v)
      | none => none
  | .addOrRetract op (.ok e) a (.error t) =>
      match m t with
      | some n => some (.addOrRetract op e a (.ref n))
      | none => none
  | _ => none

/-- The `i2` lowering of `into_allocated_iter`: `resolved` and `inert`
terms must already be free of tempids. -/
def lower_resolved : TermWithTempIds → Option TermWithoutTempIds
  | .addOrRetract op (.ok n) a (.ok v) => some (.addOrRetract op n a v)
  | _ => none

/-- `Generation::into_allocated_iter`: assert both upsert populations are
drained, then lower allocations (`i1`) and resolved/inert (`i2`) in
iterator order; `none` models any panic or assertion failure. -/
def Generation.into_allocated_iter (g : Generation) (temp_id_map : TempIdMap) :
    Option (List TermWithoutTempIds) :=
  if g.upserts_e = [] ∧ g.upserts_ev = [] then
    match mapPanic (lower_alloc temp_id_map)
        (g.allocations_ev ++ g.allocations_e ++ g.allocations_v),
      mapPanic lower_resolved (g.resolved ++ g.inert) with
    | some l1, some l2 => some (l1 ++ l2)
    | _, _ => none
  else none

/-- C10 counterexample: a generation whose only term is an unresolved
tempid parked in `inert` (exactly what `population_type` produces for
tempid-bearing retract terms).  `temp_ids_iter` does not scan `inert`, so
it yields no tempids and the empty map vacuously covers them; yet
`into_allocated_iter` panics on the term instead of lowering it — the
claim fails. -/
theorem c10_counterexample :
    (Generation.mk [] [] [] [] [] [] []
      [Term.addOrRetract .add (.error "t") 10 (.ok (.long 0))]).upserts_e =
        [] ∧
    (Generation.mk [] [] [] [] [] [] []
      [Term.addOrRetract .add (.error "t") 10 (.ok (.long 0))]).upserts_ev =
        [] ∧
    Generation.temp_ids_iter (Generation.mk [] [] [] [] [] [] []
      [Term.addOrRetract .add (.error "t") 10 (.ok (.long 0))]) = some [] ∧
    Generation.into_allocated_iter (Generation.mk [] [] [] [] [] [] []
      [Term.addOrRetract .add (.error "t") 10 (.ok (.long 0))])
      (fun _ => none) = none :=
  ⟨rfl, rfl, rfl, rfl⟩

/-- The shape invariant of a fully-evolved generation: allocations hold
their canonical tempid shapes and `resolved`/`inert` are tempid-free. -/
def Generation.allocatedShapes (g : Generation) : Prop :=
  (∀ t ∈ g.allocations_ev, wfEV t) ∧
  (∀ t ∈ g.allocations_e,
    ∃ op tid a v, t = Term.addOrRetract op (.error tid) a (.ok v)) ∧
  (∀ t ∈ g.allocations_v,
    ∃ op e a tid, t = Term.addOrRetract op (.ok e) a (.error tid)) ∧
  (∀ t ∈ g.resolved,
    ∃ op n a v, t = Term.addOrRetract op (.ok n) a (.ok v)) ∧
  (∀ t ∈ g.inert,
    ∃ op n a v, t = Term.addOrRetract op (.ok n) a (.ok v))

/-- C10 (amended): for every generation whose upsert populations are empty,
whose populations have their canonical shapes (allocations carry tempids in
the expected places, `resolved` and `inert` are tempid-free), and every
`TempIdMap` covering each tempid produced by `temp_ids_iter`,
`into_allocated_iter` lowers every remaining term without reaching any
panic branch, yielding exactly one output term per input term. -/
theorem c10_into_allocated (g : Generation) (m : TempIdMap)
    (ts : List TempId)
    (h1 : g.upserts_e = []) (h2 : g.upserts_ev = [])
    (hsh : g.allocatedShapes)
    (hti : g.temp_ids_iter = some ts)
    (hcov : ∀ t ∈ ts, (m t).isSome = true) :
    ∃ out, g.into_allocated_iter m = some out ∧
      out.length = g.allocations_ev.length + g.allocations_e.length +
        g.allocations_v.length + g.resolved.length + g.inert.length := by
  obtain ⟨hs1, hs2, hs3, hs4, hs5⟩ := hsh
  unfold Generation.temp_ids_iter at hti
  rcases hA : mapPanic temp_ids_of_i1 (g.upserts_e ++ g.allocations_e)
    with _ | l1
  · rw [hA] at hti; simp at hti
  rcases hB : mapPanic temp_ids_of_i2 (g.upserts_ev ++ g.allocations_ev)
    with _ | l2
  · rw [hA, hB] at hti; simp at hti
  rcases hC : mapPanic temp_ids_of_i3 g.allocations_v with _ | l3
  · rw [hA, hB, hC] at hti; simp at hti
  rw [hA, hB, hC] at hti
  simp only [Option.some.injEq] at hti
  subst hti
  have hcov1 : ∀ t ∈ l1, (m t).isSome = true := fun t ht =>
    hcov t (by simp [List.mem_append, ht])
  have hcov2 : ∀ t ∈ l2.flatten, (m t).isSome = true := fun t ht =>
    hcov t (by simp [List.mem_append, ht])
  have hcov3 : ∀ t ∈ l3, (m t).isSome = true := fun t ht =>
    hcov t (by simp [List.mem_append, ht])
  have hallo : ∀ t ∈ g.allocations_ev ++ g.allocations_e ++ g.allocations_v,
      (lower_alloc m t).isSome = true := by
    intro t ht
    rcases List.mem_append.1 ht with hx | hv
    · rcases List.mem_append.1 hx with hev | he
      · obtain ⟨op, t1, a, t2, rfl⟩ := hs1 t hev
        have hmem : Term.addOrRetract op (.error t1) a (.error t2) ∈
            g.upserts_ev ++ g.allocations_ev := by
          rw [h2]; simpa using hev
        obtain ⟨y, hy, hfy⟩ := mapPanic_mem _ _ _ hB _ hmem
        simp only [temp_ids_of_i2] at hfy
        have hy2 : [t1, t2] = y := Option.some.inj hfy
        have hm1 : (m t1).isSome = true := hcov2 t1
          (List.mem_flatten.2 ⟨y, hy, by rw [← hy2]; simp⟩)
        have hm2 : (m t2).isSome = true := hcov2 t2
          (List.mem_flatten.2 ⟨y, hy, by rw [← hy2]; simp⟩)
        obtain ⟨n1, hn1⟩ := Option.isSome_iff_exists.1 hm1
        obtain ⟨n2, hn2⟩ := Option.isSome_iff_exists.1 hm2
        simp only [lower_alloc]
        rw [hn1, hn2]
        rfl
      · obtain ⟨op, tid, a, v, rfl⟩ := hs2 t he
        have hmem : Term.addOrRetract op (.error tid) a (.ok v) ∈
            g.upserts_e ++ g.allocations_e := by
          rw [h1]; simpa using he
        obtain ⟨y, hy, hfy⟩ := mapPanic_mem _ _ _ hA _ hmem
        simp only [temp_ids_of_i1] at hfy
        have hy2 : tid = y := Option.some.inj hfy
        have hm1 : (m tid).isSome = true := hcov1 tid (hy2 ▸ hy)
        obtain ⟨n, hn⟩ := Option.isSome_iff_exists.1 hm1
        simp only [lower_alloc]
        rw [hn]
        rfl
    · obtain ⟨op, e, a, tid, rfl⟩ := hs3 t hv
      obtain ⟨y, hy, hfy⟩ := mapPanic_mem _ _ _ hC _ hv
      simp only [temp_ids_of_i3] at hfy
      have hy2 : tid = y := Option.some.inj hfy
      have hm1 : (m tid).isSome = true := hcov3 tid (hy2 ▸ hy)
      obtain ⟨n, hn⟩ := Option.isSome_iff_exists.1 hm1
      simp only [lower_alloc]
      rw [hn]
      rfl
  have hres : ∀ t ∈ g.resolved ++ g.inert,
      (lower_resolved t).isSome = true := by
    intro t ht
    rcases List.mem_append.1 ht with hr | hi
    · obtain ⟨op, n, a, v, rfl⟩ := hs4 t hr
      rfl
    · obtain ⟨op, n, a, v, rfl⟩ := hs5 t hi
      rfl
  obtain ⟨o1, ho1⟩ := mapPanic_isSome _ _ hallo
  obtain ⟨o2, ho2⟩ := mapPanic_isSome _ _ hres
  refine ⟨o1 ++ o2, ?_, ?_⟩
  · unfold Generation.into_allocated_iter
    rw [if_pos ⟨h1, h2⟩, ho1, ho2]
  · have e1 := mapPanic_length _ _ _ ho1
    have e2 := mapPanic_length _ _ _ ho2
    simp only [List.length_append] at e1 e2 ⊢
    omega

/-- C10 witness: a generation with one allocation of each kind plus
resolved and inert terms lowers completely, one output per input, under a
map covering its tempids. -/
theorem c10_witness :
    Generation.into_allocated_iter
      (Generation.mk [] []
        [Term.addOrRetract .add (.error "a") 3 (.error "b")]
        [Term.addOrRetract .add (.error "c") 4 (.ok (.long 1))]
        [Term.addOrRetract .add (.ok 9) 5 (.error "a")]
        []
        [Term.addOrRetract .add (.ok 1) 6 (.ok (.long 2))]
        [Term.addOrRetract .add (.ok 2) 7 (.ok (.long 3))])
      (fun t => if t = "a" then some 100 else if t = "b" then some 101
        else if t = "c" then some 102 else none) =
      some [Term.addOrRetract .add 100 3 (.ref 101),
            Term.addOrRetract .add 102 4 (.long 1),
            Term.addOrRetract .add 9 5 (.ref 100),
            Term.addOrRetract .add 1 6 (.long 2),
            Term.addOrRetract .add 2 7 (.long 3)] ∧
    ([Term.addOrRetract .add 100 3 (.ref 101),
      Term.addOrRetract .add 102 4 (.long 1),
      Term.addOrRetract .add 9 5 (.ref 100),
      Term.addOrRetract .add 1 6 (.long 2),
      Term.addOrRetract .add 2 7 (.long 3)] :
        List TermWithoutTempIds).length = 5 := by
  have hsh : (Generation.mk [] []
      [Term.addOrRetract .add (.error "a") 3 (.error "b")]
      [Term.addOrRetract .add (.error "c") 4 (.ok (.long 1))]
      [Term.addOrRetract .add (.ok 9) 5 (.error "a")]
      []
      [Term.addOrRetract .add (.ok 1) 6 (.ok (.long 2))]
      [Term.addOrRetract .add (.ok 2) 7 (.ok (.long 3))]).allocatedShapes := by
    refine ⟨?_, ?_, ?_, ?_, ?_⟩ <;> intro t ht <;>
      simp only [List.mem_singleton] at ht <;> subst ht
    · exact ⟨.add, "a", 3, "b", rfl⟩
    · exact ⟨.add, "c", 4, .long 1, rfl⟩
    · exact ⟨.add, 9, 5, "a", rfl⟩
    · exact ⟨.add, 1, 6, .long 2, rfl⟩
    · exact ⟨.add, 2, 7, .long 3, rfl⟩
  obtain ⟨out, h1, h2⟩ := c10_into_allocated
    (Generation.mk [] []
      [Term.addOrRetract .add (.error "a") 3 (.error "b")]
      [Term.addOrRetract .add (.error "c") 4 (.ok (.long 1))]
      [Term.addOrRetract .add (.ok 9) 5 (.error "a")]
      []
      [Term.addOrRetract .add (.ok 1) 6 (.ok (.long 2))]
      [Term.addOrRetract .add (.ok 2) 7 (.ok (.long 3))])
    (fun t => if t = "a" then some 100 else if t = "b" then some 101
      else if t = "c" then some 102 else none)
    ["c", "a", "b", "a"] rfl rfl hsh rfl (by decide)
  have he : out = [Term.addOrRetract .add 100 3 (.ref 101),
      Term.addOrRetract .add 102 4 (.long 1),
      Term.addOrRetract .add 9 5 (.ref 100),
      Term.addOrRetract .add 1 6 (.long 2),
      Term.addOrRetract .add 2 7 (.long 3)] := by
    have hr : Generation.into_allocated_iter
        (Generation.mk [] []
          [Term.addOrRetract .add (.error "a") 3 (.error "b")]
          [Term.addOrRetract .add (.error "c") 4 (.ok (.long 1))]
          [Term.addOrRetract .add (.ok 9) 5 (.error "a")]
          []
          [Term.addOrRetract .add (.ok 1) 6 (.ok (.long 2))]
          [Term.addOrRetract .add (.ok 2) 7 (.ok (.long 3))])
        (fun t => if t = "a" then some 100 else if t = "b" then some 101
          else if t = "c" then some 102 else none) =
        some [Term.addOrRetract .add 100 3 (.ref 101),
              Term.addOrRetract .add 102 4 (.long 1),
              Term.addOrRetract .add 9 5 (.ref 100),
              Term.addOrRetract .add 1 6 (.long 2),
              Term.addOrRetract .add 2 7 (.long 3)] := rfl
    exact Option.some.inj (h1.symm.trans hr)
  exact ⟨he ▸ h1, he ▸ h2⟩

theorem population_type_shape (term : TermWithTempIds) (db : DB)
    (pt : PopulationType)
    (h : TermWithTempIds.population_type term db = .ok pt) :
    (pt = .upsertsE → wfUE term) ∧ (pt = .upsertsEV → wfEV term) ∧
    (pt = .allocationsEV → wfEV term) ∧ (pt = .allocationsE → wfUE term) ∧
    (pt = .allocationsV → wfAV term) := by
  cases term with
  | addOrRetract op e a v =>
      cases e with
      | error t1 =>
          cases v with
          | error t2 =>
              refine ⟨?_, ?_, ?_, ?_, ?_⟩ <;> intro hpt <;>
                first
                | exact ⟨op, t1, a, .error t2, rfl⟩
                | exact ⟨op, t1, a, t2, rfl⟩
                | exact ⟨op, .error t1, a, t2, rfl⟩
          | ok vv =>
              refine ⟨?_, ?_, ?_, ?_, ?_⟩ <;> intro hpt <;> subst hpt <;>
                first
                | exact ⟨op, t1, a, .ok vv, rfl⟩
                | (exfalso
                   simp only [TermWithTempIds.population_type] at h
                   by_cases hop : op = OpType.add
                   · rw [if_pos hop] at h
                     cases hra : db.schema.require_attribute_for_entid a with
                     | error err => simp [hra] at h
                     | ok attr0 =>
                         simp only [hra] at h
                         by_cases hu : attr0.unique_identity = true
                         · rw [if_pos hu] at h; simp at h
                         · rw [if_neg hu] at h; simp at h
                   · rw [if_neg hop] at h; simp at h)
      | ok n =>
          cases v with
          | error t2 =>
              refine ⟨?_, ?_, ?_, ?_, ?_⟩ <;> intro hpt <;> subst hpt <;>
                first
                | exact ⟨op, .ok n, a, t2, rfl⟩
                | (exfalso
                   simp only [TermWithTempIds.population_type] at h
                   simp at h)
          | ok vv =>
              refine ⟨?_, ?_, ?_, ?_, ?_⟩ <;> intro hpt <;> subst hpt <;>
                exfalso <;> simp only [TermWithTempIds.population_type] at h <;>
                simp at h
  | retractAttribute e a =>
      refine ⟨?_, ?_, ?_, ?_, ?_⟩ <;> intro hpt <;> subst hpt <;>
        exfalso <;> simp only [TermWithTempIds.population_type] at h <;>
        simp at h
  | retractEntity e =>
      refine ⟨?_, ?_, ?_, ?_, ?_⟩ <;> intro hpt <;> subst hpt <;>
        exfalso <;> simp only [TermWithTempIds.population_type] at h <;>
        simp at h

/-- `Generation::from` establishes the shape invariant: every population it
fills holds terms of the shape its `evolve_one_step` loop destructures. -/
theorem fromLoop_wf (db : DB) (terms : List TermWithTempIds) :
    ∀ g g2 : Generation, g.wellFormed →
    Generation.fromLoop db terms g = .ok g2 → g2.wellFormed := by
  induction terms with
  | nil =>
      intro g g2 hwf h
      unfold Generation.fromLoop at h
      obtain rfl := Except.ok.inj h
      exact hwf
  | cons term rest ih =>
      intro g g2 hwf h
      unfold Generation.fromLoop at h
      cases hpt : TermWithTempIds.population_type term db with
      | error e => rw [hpt] at h; simp at h
      | ok pt =>
          have hshape := population_type_shape term db pt hpt
          obtain ⟨hw1, hw2, hw3, hw4, hw5⟩ := hwf
          simp only [hpt] at h
          cases pt with
          | upsertsE =>
              refine ih _ g2 ?_ h
              refine ⟨?_, hw2, hw3, hw4, hw5⟩
              intro t ht
              have ht2 : t ∈ g.upserts_e ++ [term] := ht
              rcases List.mem_append.1 ht2 with h0 | h0
              · exact hw1 t h0
              · simp only [List.mem_singleton] at h0
                subst h0
                exact hshape.1 rfl
          | upsertsEV =>
              refine ih _ g2 ?_ h
              refine ⟨hw1, ?_, hw3, hw4, hw5⟩
              intro t ht
              have ht2 : t ∈ g.upserts_ev ++ [term] := ht
              rcases List.mem_append.1 ht2 with h0 | h0
              · exact hw2 t h0
              · simp only [List.mem_singleton] at h0
                subst h0
                exact hshape.2.1 rfl
          | allocationsEV =>
              refine ih _ g2 ?_ h
              refine ⟨hw1, hw2, ?_, hw4, hw5⟩
              intro t ht
              have ht2 : t ∈ g.allocations_ev ++ [term] := ht
              rcases List.mem_append.1 ht2 with h0 | h0
              · exact hw3 t h0
              · simp only [List.mem_singleton] at h0
                subst h0
                exact hshape.2.2.1 rfl
          | allocationsE =>
              refine ih _ g2 ?_ h
              refine ⟨hw1, hw2, hw3, ?_, hw5⟩
              intro t ht
              have ht2 : t ∈ g.allocations_e ++ [term] := ht
              rcases List.mem_append.1 ht2 with h0 | h0
              · exact hw4 t h0
              · simp only [List.mem_singleton] at h0
                subst h0
                exact hshape.2.2.2.1 rfl
          | allocationsV =>
              refine ih _ g2 ?_ h
              refine ⟨hw1, hw2, hw3, hw4, ?_⟩
              intro t ht
              have ht2 : t ∈ g.allocations_v ++ [term] := ht
              rcases List.mem_append.1 ht2 with h0 | h0
              · exact hw5 t h0
              · simp only [List.mem_singleton] at h0
                subst h0
                exact hshape.2.2.2.2 rfl
          | inert =>
              refine ih _ g2 ?_ h
              exact ⟨hw1, hw2, hw3, hw4, hw5⟩

theorem fromTerms_wellFormed (terms : List TermWithTempIds) (db : DB)
    (g : Generation) (h : Generation.fromTerms terms db = .ok g) :
    g.wellFormed :=
  fromLoop_wf db terms {} g
    ⟨fun t ht => absurd ht (List.not_mem_nil t),
     fun t ht => absurd ht (List.not_mem_nil t),
     fun t ht => absurd ht (List.not_mem_nil t),
     fun t ht => absurd ht (List.not_mem_nil t),
     fun t ht => absurd ht (List.not_mem_nil t)⟩ h
